import Mathlib

/-!
# afx image buffers (`include/image.h`)

A shallow embedding of `afx::ImageBase<T>` and `afx::ImageLayer`.

Conventions of the embedding:

* addresses and `std::size_t` values are natural numbers; every `size_t`
  operation and every pointer step is taken modulo `2 ^ 64`;
* `int` values are integers; signed arithmetic is exact (signed overflow has no
  defined result in C++), and the conversion of an `int` to `size_t` is the
  residue modulo `2 ^ 64`; an `unsigned int` is a natural number below `2 ^ 32`
  and its conversion to `int` is the two's complement value;
* `sizeof(T)` is the parameter `sz`;
* the heap is a total map from addresses to byte values, `memcpy` updates it;
* the result of the platform allocator is supplied by a parameter
  `aligned_alloc alignment size`.
-/

namespace afx

/-! ## Machine arithmetic -/

/-- Conversion of a signed integer to `std::size_t`. -/
def toSizeT (i : Int) : Nat := (i % (2 : Int) ^ 64).toNat

/-- Multiplication in `std::size_t`. -/
def mulSizeT (a b : Nat) : Nat := (a * b) % 2 ^ 64

/-- Addition in `std::size_t`. -/
def addSizeT (a b : Nat) : Nat := (a + b) % 2 ^ 64

/-- Stepping a byte pointer by a `std::size_t` offset. -/
def ptrAdd (p off : Nat) : Nat := (p + off) % 2 ^ 64

/-- Stepping a byte pointer back by a `std::size_t` offset. -/
def ptrSub (p off : Nat) : Nat := (p + (2 ^ 64 - off % 2 ^ 64)) % 2 ^ 64

/-- Conversion of an `unsigned int` to `int`: values from `2 ^ 31` on become
negative. -/
def toInt32 (u : Nat) : Int :=
  if u % 2 ^ 32 < 2 ^ 31 then Int.ofNat (u % 2 ^ 32) else Int.ofNat (u % 2 ^ 32) - 2 ^ 32

/-! ## Bounds (external collaborator) -/

/-- Modelled from the spec: the class `afx::Bounds` of `include/bounds.h`, which is
not part of the sources at hand. It is an inclusive integer rectangle
`[x1,x2] x [y1,y2]`; `image.h` reads and passes its coordinates as `int`. -/
structure Bounds where
  x1 : Int
  y1 : Int
  x2 : Int
  y2 : Int
deriving DecidableEq

namespace Bounds

/-- Modelled from the spec: `Bounds::GetWidth` of `include/bounds.h`,
`width = x2 - x1 + 1`. -/
def GetWidth (r : Bounds) : Int := r.x2 - r.x1 + 1

/-- Modelled from the spec: `Bounds::GetHeight` of `include/bounds.h`,
`height = y2 - y1 + 1`. -/
def GetHeight (r : Bounds) : Int := r.y2 - r.y1 + 1

/-- Modelled from the spec: `Bounds::ClampX` of `include/bounds.h`, the nearest-edge
clamp of a column into `[x1, x2]`. -/
def ClampX (r : Bounds) (x : Int) : Int := max r.x1 (min x r.x2)

/-- Modelled from the spec: `Bounds::ClampY` of `include/bounds.h`, the nearest-edge
clamp of a row into `[y1, y2]`. -/
def ClampY (r : Bounds) (y : Int) : Int := max r.y1 (min y r.y2)

/-- Modelled from the spec: `Bounds::GetIntersection` of `include/bounds.h`, the
rectangle common to both rectangles. -/
def GetIntersection (r other : Bounds) : Bounds :=
  { x1 := max r.x1 other.x1, y1 := max r.y1 other.y1,
    x2 := min r.x2 other.x2, y2 := min r.y2 other.y2 }

/-- Membership of a coordinate in the inclusive rectangle. -/
def Contains (r : Bounds) (x y : Int) : Prop :=
  r.x1 ≤ x ∧ x ≤ r.x2 ∧ r.y1 ≤ y ∧ y ≤ r.y2

instance (r : Bounds) (x y : Int) : Decidable (r.Contains x y) := by
  unfold Contains; infer_instance

/-- Inclusion of the rectangle `r` in the rectangle `outer`. -/
def Within (r outer : Bounds) : Prop :=
  outer.x1 ≤ r.x1 ∧ r.x2 ≤ outer.x2 ∧ outer.y1 ≤ r.y1 ∧ r.y2 ≤ outer.y2

instance (r outer : Bounds) : Decidable (r.Within outer) := by
  unfold Within; infer_instance

/-- The rectangle has at least one column and one row (`x1 ≤ x2`, `y1 ≤ y2`). -/
def NonDegenerate (r : Bounds) : Prop := r.x1 ≤ r.x2 ∧ r.y1 ≤ r.y2

instance (r : Bounds) : Decidable r.NonDegenerate := by
  unfold NonDegenerate; infer_instance

end Bounds

/-! ## The heap -/

/-- Byte-addressed memory: the byte stored at each address. -/
abbrev Mem := Nat → Nat

/-- The library call `memcpy(dst, src, n)`: the `n` bytes from `src` are stored at `dst`. -/
def memcpy (m : Mem) (dst src n : Nat) : Mem :=
  fun a => if dst ≤ a ∧ a < dst + n then m (src + (a - dst)) else m a

/-! ## ImageBase -/

/-- The data members of `ImageBase<T>`: `ptr_` (0 is the null pointer), `pitch_`
and `region_`. -/
structure ImageBase where
  ptr_ : Nat
  pitch_ : Nat
  region_ : Bounds
deriving DecidableEq

namespace ImageBase

/-- The default constructor `ImageBase<T>()`; `dflt` is the value of `afx::Bounds()`. -/
def ctor (dflt : Bounds) : ImageBase :=
  { ptr_ := 0, pitch_ := 0, region_ := dflt }

/-- The member `Deallocate`: the block is freed and the pointer reset. -/
def Deallocate (b : ImageBase) : ImageBase :=
  if b.ptr_ ≠ 0 then { b with ptr_ := 0 } else b

/-- The member `Allocate(const afx::Bounds&)` (branch without `_WIN32`). -/
def Allocate (sz : Nat) (aligned_alloc : Nat → Nat → Nat) (b : ImageBase)
    (region : Bounds) : ImageBase :=
  let b1 := b.Deallocate
  let b2 := { b1 with region_ := region }
  let b3 := { b2 with
    pitch_ := mulSizeT (addSizeT (mulSizeT (toSizeT b2.region_.GetWidth) sz) 63 / 64) 64 }
  { b3 with ptr_ := aligned_alloc 64 (mulSizeT b3.pitch_ (toSizeT b3.region_.GetHeight)) }

/-- The region `afx::Bounds(0, 0, width - 1, height - 1)` that
`Allocate(unsigned int, unsigned int)` builds: `width - 1` and `height - 1` are
computed in `unsigned int` and then converted to the `int` coordinates. -/
def whRegion (width height : Nat) : Bounds :=
  { x1 := 0, y1 := 0,
    x2 := toInt32 ((width + (2 ^ 32 - 1)) % 2 ^ 32),
    y2 := toInt32 ((height + (2 ^ 32 - 1)) % 2 ^ 32) }

/-- The member `Allocate(unsigned int, unsigned int)`. -/
def AllocateWH (sz : Nat) (aligned_alloc : Nat → Nat → Nat) (b : ImageBase)
    (width height : Nat) : ImageBase :=
  b.Allocate sz aligned_alloc (whRegion width height)

/-- The constructor `ImageBase<T>(const afx::Bounds&)`. -/
def ctorRegion (sz : Nat) (aligned_alloc : Nat → Nat → Nat) (dflt region : Bounds) :
    ImageBase :=
  Allocate sz aligned_alloc { ptr_ := 0, pitch_ := 0, region_ := dflt } region

/-- The constructor `ImageBase<T>(unsigned int, unsigned int)`. -/
def ctorWH (sz : Nat) (aligned_alloc : Nat → Nat → Nat) (dflt : Bounds)
    (width height : Nat) : ImageBase :=
  AllocateWH sz aligned_alloc { ptr_ := 0, pitch_ := 0, region_ := dflt } width height

/-- The member `GetPtr()`. -/
def GetBase (b : ImageBase) : Nat := b.ptr_

/-- The member `GetPtr(int x, int y)`. -/
def GetPtr (sz : Nat) (b : ImageBase) (x y : Int) : Nat :=
  ptrAdd (ptrAdd b.ptr_ (mulSizeT (toSizeT (y - b.region_.y1)) b.pitch_))
    (mulSizeT (toSizeT (x - b.region_.x1)) sz)

/-- The member `GetPtrBnds(int x, int y)`. -/
def GetPtrBnds (sz : Nat) (b : ImageBase) (x y : Int) : Nat :=
  ptrAdd (ptrAdd b.ptr_ (mulSizeT (toSizeT (b.region_.ClampY y - b.region_.y1)) b.pitch_))
    (mulSizeT (toSizeT (b.region_.ClampX x - b.region_.x1)) sz)

/-- The member `GetNextRow`. -/
def GetNextRow (b : ImageBase) (ptr : Nat) : Nat := ptrAdd ptr b.pitch_

/-- The member `GetPreviousRow`. -/
def GetPreviousRow (b : ImageBase) (ptr : Nat) : Nat := ptrSub ptr b.pitch_

/-- The member `GetPitch`. -/
def GetPitch (b : ImageBase) : Nat := b.pitch_

/-- The member `GetBounds`. -/
def GetBounds (b : ImageBase) : Bounds := b.region_

/-- The member `IsAllocated`. -/
def IsAllocated (b : ImageBase) : Bool :=
  if b.ptr_ ≠ 0 then true else false

/-- Number of passes of `for (int y = ya; y <= yb; ++y)`. -/
def rowCount (ya yb : Int) : Nat := (yb + 1 - ya).toNat

/-- The loop of `Copy`: row `y` of `other` is copied to row `y` of `b`, for `n` rows. -/
def CopyLoop (sz : Nat) (b other : ImageBase) : Nat → Int → Mem → Mem
  | 0, _, m => m
  | n + 1, y, m =>
    CopyLoop sz b other n (y + 1)
      (memcpy m (b.GetPtr sz b.region_.x1 y) (other.GetPtr sz other.region_.x1 y)
        (mulSizeT (toSizeT b.region_.GetWidth) sz))

/-- The member `Copy(const ImageBase<T>& other)`. -/
def Copy (sz : Nat) (aligned_alloc : Nat → Nat → Nat) (b other : ImageBase) (m : Mem) :
    ImageBase × Mem :=
  let b1 := { b with region_ := other.region_ }
  let b2 := b1.Allocate sz aligned_alloc b1.region_
  (b2, CopyLoop sz b2 other (rowCount b2.region_.y1 b2.region_.y2) b2.region_.y1 m)

/-- The copy constructor `ImageBase<T>(const ImageBase<T>&)`. -/
def ctorCopy (sz : Nat) (aligned_alloc : Nat → Nat → Nat) (dflt : Bounds)
    (other : ImageBase) (m : Mem) : ImageBase × Mem :=
  Copy sz aligned_alloc { ptr_ := 0, pitch_ := 0, region_ := dflt } other m

/-- The copy assignment `operator=(const ImageBase<T>&)`, for `this` distinct
from `other`. -/
def assignCopy (sz : Nat) (aligned_alloc : Nat → Nat → Nat) (b other : ImageBase)
    (m : Mem) : ImageBase × Mem :=
  Copy sz aligned_alloc b other m

/-- The move constructor `ImageBase<T>(ImageBase<T>&&)`: the new object and the
state in which `other` is left. -/
def ctorMove (dflt : Bounds) (other : ImageBase) : ImageBase × ImageBase :=
  let c : ImageBase := { ptr_ := other.ptr_, pitch_ := other.pitch_, region_ := other.region_ }
  let o1 := { other with ptr_ := 0 }
  let o2 := { o1 with pitch_ := 0 }
  let o3 := { o2 with region_ := dflt }
  (c, o3)

/-- The loop shared by the two host-memory overloads of `MemCpyIn`: the source
steps by the caller's pitch, the destination by `GetNextRow`. -/
def MemCpyInLoop (b : ImageBase) (pitch size : Nat) : Nat → Nat → Nat → Mem → Mem
  | 0, _, _, m => m
  | n + 1, source_ptr, dest_ptr, m =>
    MemCpyInLoop b pitch size n (ptrAdd source_ptr pitch) (b.GetNextRow dest_ptr)
      (memcpy m dest_ptr source_ptr size)

/-- The member `MemCpyIn(const T* ptr, std::size_t pitch)`. -/
def MemCpyIn (sz : Nat) (b : ImageBase) (ptr pitch : Nat) (m : Mem) : Mem :=
  MemCpyInLoop b pitch (mulSizeT (toSizeT b.region_.GetWidth) sz)
    (rowCount b.region_.y1 b.region_.y2) ptr (b.GetPtr sz b.region_.x1 b.region_.y1) m

/-- The member `MemCpyIn(const T* ptr, std::size_t pitch, afx::Bounds region)`. -/
def MemCpyInRegion (sz : Nat) (b : ImageBase) (ptr pitch : Nat) (region : Bounds)
    (m : Mem) : Mem :=
  MemCpyInLoop b pitch (mulSizeT (toSizeT region.GetWidth) sz)
    (rowCount region.y1 region.y2) ptr (b.GetPtr sz region.x1 region.y1) m

/-- The member `MemCpyIn(const ImageBase<T>& source_image, afx::Bounds region)`. -/
def MemCpyInImageRegion (sz : Nat) (b source_image : ImageBase) (region : Bounds)
    (m : Mem) : Mem :=
  b.MemCpyInRegion sz (source_image.GetPtr sz region.x1 region.y1) source_image.GetPitch
    region m

/-- The member `MemCpyIn(const ImageBase<T>& source_image)`. -/
def MemCpyInImage (sz : Nat) (b source_image : ImageBase) (m : Mem) : Mem :=
  let region := source_image.GetBounds.GetIntersection b.region_
  b.MemCpyInRegion sz (source_image.GetPtr sz region.x1 region.y1) source_image.GetPitch
    region m

/-- The loop shared by the two host-memory overloads of `MemCpyOut`: after each
row the source becomes `GetNextRow(dest_ptr)`, then the destination steps by the
caller's pitch. -/
def MemCpyOutLoop (b : ImageBase) (pitch size : Nat) : Nat → Nat → Nat → Mem → Mem
  | 0, _, _, m => m
  | n + 1, source_ptr, dest_ptr, m =>
    MemCpyOutLoop b pitch size n (b.GetNextRow dest_ptr) (ptrAdd dest_ptr pitch)
      (memcpy m dest_ptr source_ptr size)

/-- The member `MemCpyOut(T* ptr, std::size_t pitch)`. -/
def MemCpyOut (sz : Nat) (b : ImageBase) (ptr pitch : Nat) (m : Mem) : Mem :=
  MemCpyOutLoop b pitch (mulSizeT (toSizeT b.region_.GetWidth) sz)
    (rowCount b.region_.y1 b.region_.y2) (b.GetPtr sz b.region_.x1 b.region_.y1) ptr m

/-- The member `MemCpyOut(T* ptr, std::size_t pitch, afx::Bounds region)`. -/
def MemCpyOutRegion (sz : Nat) (b : ImageBase) (ptr pitch : Nat) (region : Bounds)
    (m : Mem) : Mem :=
  MemCpyOutLoop b pitch (mulSizeT (toSizeT region.GetWidth) sz)
    (rowCount region.y1 region.y2) (b.GetPtr sz region.x1 region.y1) ptr m

/-- The member `MemCpyOut(const ImageBase<T>& dest_image, afx::Bounds region)`. -/
def MemCpyOutImageRegion (sz : Nat) (b dest_image : ImageBase) (region : Bounds)
    (m : Mem) : Mem :=
  b.MemCpyOutRegion sz (dest_image.GetPtr sz region.x1 region.y1) dest_image.GetPitch
    region m

/-- The member `MemCpyOut(const ImageBase<T>& dest_image)`. -/
def MemCpyOutImage (sz : Nat) (b dest_image : ImageBase) (m : Mem) : Mem :=
  let region := dest_image.GetBounds
  b.MemCpyOutRegion sz (dest_image.GetPtr sz region.x1 region.y1) dest_image.GetPitch
    region m

/-- The state of a buffer that `Allocate` set up over a non-degenerate region with
a block obtained from the allocator: the pointer is not null, the pitch is the
one `Allocate` computes (without wrap-around in `size_t`), and the block of
`pitch_ * height` bytes lies in the address space. -/
def Valid (sz : Nat) (b : ImageBase) : Prop :=
  b.ptr_ ≠ 0 ∧ 0 < sz ∧ b.region_.NonDegenerate
  ∧ b.region_.GetWidth.toNat * sz + 63 < 2 ^ 64
  ∧ b.pitch_ = (b.region_.GetWidth.toNat * sz + 63) / 64 * 64
  ∧ b.ptr_ + b.pitch_ * b.region_.GetHeight.toNat ≤ 2 ^ 64

instance (sz : Nat) (b : ImageBase) : Decidable (b.Valid sz) := by
  unfold Valid; infer_instance

/-- The address `a` lies in the storage block of `b`. -/
def InStorage (b : ImageBase) (a : Nat) : Prop :=
  b.ptr_ ≤ a ∧ a < b.ptr_ + b.pitch_ * b.region_.GetHeight.toNat

instance (b : ImageBase) (a : Nat) : Decidable (b.InStorage a) := by
  unfold InStorage; infer_instance

/-- The storage blocks of `a` and `b` have no address in common. -/
def StorageDisjoint (a b : ImageBase) : Prop :=
  a.ptr_ + a.pitch_ * a.region_.GetHeight.toNat ≤ b.ptr_
  ∨ b.ptr_ + b.pitch_ * b.region_.GetHeight.toNat ≤ a.ptr_

instance (a b : ImageBase) : Decidable (a.StorageDisjoint b) := by
  unfold StorageDisjoint; infer_instance

end ImageBase

/-! ## Objects addressed by reference -/

/-- The image objects in memory, by object address. -/
abbrev ImageStore := Nat → ImageBase

/-- Assignment to the object at address `p`. -/
def ImageStore.set (st : ImageStore) (p : Nat) (v : ImageBase) : ImageStore :=
  fun q => if q = p then v else st q

/-- The move assignment `operator=(ImageBase<T>&&)` on the objects at the addresses
`self` (the object assigned to) and `other`. -/
def moveAssign (dflt : Bounds) (st : ImageStore) (self other : Nat) : ImageStore :=
  if self ≠ other then
    let st1 := st.set self (st self).Deallocate
    let st2 := st1.set self { st1 self with ptr_ := (st1 other).ptr_ }
    let st3 := st2.set self { st2 self with pitch_ := (st2 other).pitch_ }
    let st4 := st3.set self { st3 self with region_ := (st3 other).region_ }
    let st5 := st4.set other { st4 other with ptr_ := 0 }
    let st6 := st5.set other { st5 other with pitch_ := 0 }
    st6.set other { st6 other with region_ := dflt }
  else st

/-! ## Host-memory round trip -/

/-- The round trip of the spec: `b.MemCpyIn(H, S)` followed by `b.MemCpyOut(H2, S)`. -/
def roundTrip (sz : Nat) (b : ImageBase) (H H2 S : Nat) (m : Mem) : Mem :=
  b.MemCpyOut sz H2 S (b.MemCpyIn sz H S m)

/-- A buffer of one column and two rows of 4-byte elements, stored at address 4096. -/
def twoRowImage : ImageBase :=
  { ptr_ := 4096, pitch_ := 64, region_ := { x1 := 0, y1 := 0, x2 := 0, y2 := 1 } }

/-- A heap in which the 256 bytes from address 8192 (a host array of two rows of
stride 128) hold non-zero values and every other byte is zero, in particular the
256 bytes from address 16384 (a second host array of the same shape). -/
def twoRowHeap : Mem :=
  fun a => if 8192 ≤ a ∧ a < 8192 + 256 then 1 + a % 7 else 0

/-! ## Pixel (external collaborator) -/

/-- Modelled from the spec: the class `afx::Pixel<T>` of `include/pixel.h`, which is
not part of the sources at hand: a bundle of raw pointers, one per channel. The
read-only and the read-write flavour differ in the `const` of the element type
only. -/
structure Pixel where
  ptrs : List Nat
deriving DecidableEq

/-- Modelled from the spec: the constructor `Pixel<T>(unsigned int size)` of
`include/pixel.h`, a bundle of `size` pointers, none of them set. -/
def Pixel.ctor (size : Nat) : Pixel := { ptrs := List.replicate size 0 }

/-- Modelled from the spec: `Pixel<T>::SetPtr(ptr, i)` of `include/pixel.h`, which
stores the pointer at index `i`. -/
def Pixel.SetPtr (p : Pixel) (ptr i : Nat) : Pixel := { ptrs := p.ptrs.set i ptr }

/-! ## ImageLayer -/

/-- How a call ends: with a value, with a thrown `std::runtime_error`, or in
behaviour that C++ leaves undefined. -/
inductive Outcome (α : Type) where
  | value (v : α)
  | runtime_error (what : String)
  | undefined
deriving DecidableEq

/-- The data member of `ImageLayer`: `channels_`, the shared handles in order; a
handle is the address of the image object it owns. -/
structure ImageLayer where
  channels_ : List Nat
deriving DecidableEq

namespace ImageLayer

/-- The value of `channels_.size()`, a `std::size_t`. -/
def size (layer : ImageLayer) : Nat := layer.channels_.length % 2 ^ 64

/-- The conversion `static_cast<unsigned int>(channel)`. -/
def toUnsigned (channel : Int) : Nat := (channel % (2 : Int) ^ 32).toNat

/-- The member `AddImage(const Bounds& region)`; `obj` is the address of the image
object that `new` creates. -/
def AddImageRegion (sz : Nat) (aligned_alloc : Nat → Nat → Nat) (dflt : Bounds)
    (st : ImageStore) (layer : ImageLayer) (obj : Nat) (region : Bounds) :
    ImageStore × ImageLayer :=
  (st.set obj (ImageBase.ctorRegion sz aligned_alloc dflt region),
    { channels_ := layer.channels_ ++ [obj] })

/-- The member `AddImage(const std::shared_ptr<Image>& image_ptr)`. -/
def AddImage (layer : ImageLayer) (image_ptr : Nat) : ImageLayer :=
  { channels_ := layer.channels_ ++ [image_ptr] }

/-- The member `MoveImage(const std::shared_ptr<Image>& image_ptr)`; the argument
is a reference to const, so the handle is copied. -/
def MoveImage (layer : ImageLayer) (image_ptr : Nat) : ImageLayer :=
  { channels_ := layer.channels_ ++ [image_ptr] }

/-- The member `GetChannel(int channel)`: the comparison is made in `std::size_t`,
with `channels_.size() - 1` computed there; past the check the vector is indexed
with the converted index, which is undefined outside the vector. -/
def GetChannel (layer : ImageLayer) (channel : Int) : Outcome Nat :=
  if toUnsigned channel > (layer.size + (2 ^ 64 - 1)) % 2 ^ 64 then
    Outcome.runtime_error "afx::Image - channel does not exist"
  else
    match layer.channels_[toSizeT channel]? with
    | some h => Outcome.value h
    | none => Outcome.undefined

/-- The member `operator[](int channel)`. -/
def index (layer : ImageLayer) (channel : Int) : Outcome Nat :=
  layer.GetChannel channel

/-- The loop of `GetPixel` and of `GetWritePixel`, with the `unsigned int` counter
`i`; `fuel` bounds the number of passes and `none` means that it ran out. -/
def PixelLoop (sz : Nat) (st : ImageStore) (layer : ImageLayer) (x y : Int) :
    Nat → Nat → Pixel → Option Pixel
  | 0, _, _ => none
  | fuel + 1, i, pixel =>
    if h : i < layer.size then
      have hi : i < layer.channels_.length := Nat.lt_of_lt_of_le h (Nat.mod_le _ _)
      PixelLoop sz st layer x y fuel ((i + 1) % 2 ^ 32)
        (pixel.SetPtr ((st layer.channels_[i]).GetPtr sz x y) i)
    else some pixel

/-- The member `GetPixel(int x, int y)`. -/
def GetPixel (sz : Nat) (st : ImageStore) (layer : ImageLayer) (x y : Int) (fuel : Nat) :
    Option Pixel :=
  PixelLoop sz st layer x y fuel 0 (Pixel.ctor (layer.size % 2 ^ 32))

/-- The member `GetWritePixel(int x, int y)`. -/
def GetWritePixel (sz : Nat) (st : ImageStore) (layer : ImageLayer) (x y : Int)
    (fuel : Nat) : Option Pixel :=
  PixelLoop sz st layer x y fuel 0 (Pixel.ctor (layer.size % 2 ^ 32))

/-- The member `ChannelCount`, declared `void`: the size is computed and dropped. -/
def ChannelCount (_layer : ImageLayer) : Unit := ()

end ImageLayer

/-- Three image objects at the object addresses 1, 2 and 3, all over the region
`[0,0]-[9,9]`, and empty objects elsewhere. -/
def threeImages : ImageStore :=
  fun q =>
    if q = 1 then { ptr_ := 4096, pitch_ := 64, region_ := ⟨0, 0, 9, 9⟩ }
    else if q = 2 then { ptr_ := 8192, pitch_ := 64, region_ := ⟨0, 0, 9, 9⟩ }
    else if q = 3 then { ptr_ := 12288, pitch_ := 64, region_ := ⟨0, 0, 9, 9⟩ }
    else { ptr_ := 0, pitch_ := 0, region_ := ⟨0, 0, 0, 0⟩ }

/-! ## Building a layer -/

/-- The implicit default constructor of `ImageLayer`: no channel. -/
def ImageLayer.ctor : ImageLayer := { channels_ := [] }

/-- One call that appends a channel to a layer: `AddImage(region)`, which creates
the image object at the address `obj`, `AddImage(image_ptr)` or
`MoveImage(image_ptr)`. -/
inductive Append where
  | addRegion (obj : Nat) (region : Bounds)
  | add (image_ptr : Nat)
  | move (image_ptr : Nat)
deriving DecidableEq

/-- The handle that the call appends. -/
def Append.handle : Append → Nat
  | Append.addRegion obj _ => obj
  | Append.add image_ptr => image_ptr
  | Append.move image_ptr => image_ptr

/-- The effect of one appending call on the image objects and the layer. -/
def ImageLayer.append (sz : Nat) (aligned_alloc : Nat → Nat → Nat) (dflt : Bounds)
    (s : ImageStore × ImageLayer) : Append → ImageStore × ImageLayer
  | Append.addRegion obj region =>
    ImageLayer.AddImageRegion sz aligned_alloc dflt s.1 s.2 obj region
  | Append.add image_ptr => (s.1, s.2.AddImage image_ptr)
  | Append.move image_ptr => (s.1, s.2.MoveImage image_ptr)

/-- A freshly constructed layer after the appending calls `ops`, in order. -/
def ImageLayer.build (sz : Nat) (aligned_alloc : Nat → Nat → Nat) (dflt : Bounds)
    (st : ImageStore) (ops : List Append) : ImageStore × ImageLayer :=
  ops.foldl (ImageLayer.append sz aligned_alloc dflt) (st, ImageLayer.ctor)

/-! ## Writes through a pointer -/

/-- A store of the byte `v` at the address `a`. -/
def write (m : Mem) (a v : Nat) : Mem :=
  fun q => if q = a then v else m q

/-! ## Allocator calls -/

/-- The arguments that an aligned allocator receives. -/
structure AllocRequest where
  alignment : Nat
  size : Nat
deriving DecidableEq

/-- The pitch that `Allocate` stores for a region. -/
def ImageBase.pitchFor (sz : Nat) (region : Bounds) : Nat :=
  mulSizeT (addSizeT (mulSizeT (toSizeT region.GetWidth) sz) 63 / 64) 64

/-- The call in the branch without `_WIN32`, `aligned_alloc(64, pitch_ * height)`,
read against the C declaration `aligned_alloc(alignment, size)`. -/
def ImageBase.AllocateRequest (sz : Nat) (region : Bounds) : AllocRequest :=
  { alignment := 64,
    size := mulSizeT (ImageBase.pitchFor sz region) (toSizeT region.GetHeight) }

/-- The member `Allocate(const afx::Bounds&)` in the `_WIN32` branch; the parameter
is the C runtime function `_aligned_malloc(size, alignment)`. -/
def ImageBase.AllocateWin32 (sz : Nat) (_aligned_malloc : Nat → Nat → Nat) (b : ImageBase)
    (region : Bounds) : ImageBase :=
  let b1 := b.Deallocate
  let b2 := { b1 with region_ := region }
  let b3 := { b2 with
    pitch_ := mulSizeT (addSizeT (mulSizeT (toSizeT b2.region_.GetWidth) sz) 63 / 64) 64 }
  { b3 with ptr_ := _aligned_malloc 64 (mulSizeT b3.pitch_ (toSizeT b3.region_.GetHeight)) }

/-- The call in the `_WIN32` branch, `_aligned_malloc(64, pitch_ * height)`, read
against the C runtime declaration `_aligned_malloc(size, alignment)`. -/
def ImageBase.AllocateRequestWin32 (sz : Nat) (region : Bounds) : AllocRequest :=
  { size := 64,
    alignment := mulSizeT (ImageBase.pitchFor sz region) (toSizeT region.GetHeight) }

/-! ## Reachable buffer states -/

/-- The region is in use in the sense of the state invariant: at least one column
and one row, and not the default region `dflt` of an empty buffer. -/
def RegionInUse (dflt r : Bounds) : Prop :=
  1 ≤ r.GetWidth ∧ 1 ≤ r.GetHeight ∧ r ≠ dflt

instance (dflt r : Bounds) : Decidable (RegionInUse dflt r) := by
  unfold RegionInUse; infer_instance

/-- The states of a buffer that the public operations reach: the constructors,
`Allocate`, `Copy`, `Deallocate`, copy and move assignment, with any answers of
the allocator. -/
inductive Reachable (sz : Nat) (dflt : Bounds) : ImageBase → Prop where
  | ctor : Reachable sz dflt (ImageBase.ctor dflt)
  | ctorRegion (alloc : Nat → Nat → Nat) (region : Bounds) :
      Reachable sz dflt (ImageBase.ctorRegion sz alloc dflt region)
  | ctorWH (alloc : Nat → Nat → Nat) (w h : Nat) : w < 2 ^ 32 → h < 2 ^ 32 →
      Reachable sz dflt (ImageBase.ctorWH sz alloc dflt w h)
  | ctorCopy (alloc : Nat → Nat → Nat) (other : ImageBase) (m : Mem) :
      Reachable sz dflt other →
      Reachable sz dflt (ImageBase.ctorCopy sz alloc dflt other m).1
  | ctorMove (other : ImageBase) : Reachable sz dflt other →
      Reachable sz dflt (ImageBase.ctorMove dflt other).1
  | movedFrom (other : ImageBase) : Reachable sz dflt other →
      Reachable sz dflt (ImageBase.ctorMove dflt other).2
  | assignCopy (alloc : Nat → Nat → Nat) (b other : ImageBase) (m : Mem) :
      Reachable sz dflt b → Reachable sz dflt other →
      Reachable sz dflt (ImageBase.assignCopy sz alloc b other m).1
  | assignMove (st : ImageStore) (self other : Nat) :
      Reachable sz dflt (st self) → Reachable sz dflt (st other) →
      Reachable sz dflt (moveAssign dflt st self other self)
  | assignMoveFrom (st : ImageStore) (self other : Nat) :
      Reachable sz dflt (st self) → Reachable sz dflt (st other) →
      Reachable sz dflt (moveAssign dflt st self other other)
  | allocate (alloc : Nat → Nat → Nat) (b : ImageBase) (region : Bounds) :
      Reachable sz dflt b → Reachable sz dflt (b.Allocate sz alloc region)
  | allocateWH (alloc : Nat → Nat → Nat) (b : ImageBase) (w h : Nat) :
      w < 2 ^ 32 → h < 2 ^ 32 → Reachable sz dflt b →
      Reachable sz dflt (b.AllocateWH sz alloc w h)
  | copy (alloc : Nat → Nat → Nat) (b other : ImageBase) (m : Mem) :
      Reachable sz dflt b → Reachable sz dflt other →
      Reachable sz dflt (ImageBase.Copy sz alloc b other m).1
  | deallocate (b : ImageBase) : Reachable sz dflt b → Reachable sz dflt b.Deallocate

/-- The states that the public operations reach when `Deallocate` is not called
directly, the allocator never answers null, every region handed to a constructor
or to `Allocate` is in use in the sense of `RegionInUse` (for the forms with
`width` and `height`: the region `whRegion width height` that the code builds
and hands to `Allocate`), and copies are taken from allocated buffers only. -/
inductive ReachableGuarded (sz : Nat) (dflt : Bounds) : ImageBase → Prop where
  | ctor : ReachableGuarded sz dflt (ImageBase.ctor dflt)
  | ctorRegion (alloc : Nat → Nat → Nat) (region : Bounds) :
      (∀ a n, alloc a n ≠ 0) → RegionInUse dflt region →
      ReachableGuarded sz dflt (ImageBase.ctorRegion sz alloc dflt region)
  | ctorWH (alloc : Nat → Nat → Nat) (w h : Nat) :
      (∀ a n, alloc a n ≠ 0) → 0 < w → w < 2 ^ 32 → 0 < h → h < 2 ^ 32 →
      RegionInUse dflt (ImageBase.whRegion w h) →
      ReachableGuarded sz dflt (ImageBase.ctorWH sz alloc dflt w h)
  | ctorCopy (alloc : Nat → Nat → Nat) (other : ImageBase) (m : Mem) :
      (∀ a n, alloc a n ≠ 0) → ReachableGuarded sz dflt other →
      other.IsAllocated = true →
      ReachableGuarded sz dflt (ImageBase.ctorCopy sz alloc dflt other m).1
  | ctorMove (other : ImageBase) : ReachableGuarded sz dflt other →
      ReachableGuarded sz dflt (ImageBase.ctorMove dflt other).1
  | movedFrom (other : ImageBase) : ReachableGuarded sz dflt other →
      ReachableGuarded sz dflt (ImageBase.ctorMove dflt other).2
  | assignCopy (alloc : Nat → Nat → Nat) (b other : ImageBase) (m : Mem) :
      (∀ a n, alloc a n ≠ 0) → ReachableGuarded sz dflt b →
      ReachableGuarded sz dflt other → other.IsAllocated = true →
      ReachableGuarded sz dflt (ImageBase.assignCopy sz alloc b other m).1
  | assignMove (st : ImageStore) (self other : Nat) :
      ReachableGuarded sz dflt (st self) → ReachableGuarded sz dflt (st other) →
      ReachableGuarded sz dflt (moveAssign dflt st self other self)
  | assignMoveFrom (st : ImageStore) (self other : Nat) :
      ReachableGuarded sz dflt (st self) → ReachableGuarded sz dflt (st other) →
      ReachableGuarded sz dflt (moveAssign dflt st self other other)
  | allocate (alloc : Nat → Nat → Nat) (b : ImageBase) (region : Bounds) :
      (∀ a n, alloc a n ≠ 0) → RegionInUse dflt region → ReachableGuarded sz dflt b →
      ReachableGuarded sz dflt (b.Allocate sz alloc region)
  | allocateWH (alloc : Nat → Nat → Nat) (b : ImageBase) (w h : Nat) :
      (∀ a n, alloc a n ≠ 0) → 0 < w → w < 2 ^ 32 → 0 < h → h < 2 ^ 32 →
      RegionInUse dflt (ImageBase.whRegion w h) →
      ReachableGuarded sz dflt b →
      ReachableGuarded sz dflt (b.AllocateWH sz alloc w h)
  | copy (alloc : Nat → Nat → Nat) (b other : ImageBase) (m : Mem) :
      (∀ a n, alloc a n ≠ 0) → ReachableGuarded sz dflt b →
      ReachableGuarded sz dflt other → other.IsAllocated = true →
      ReachableGuarded sz dflt (ImageBase.Copy sz alloc b other m).1

/-! # Theorems -/

open ImageBase

/-! ## Machine arithmetic -/

theorem toSizeT_lt (i : Int) : toSizeT i < 2 ^ 64 := by
  unfold toSizeT; omega

theorem toSizeT_of_nonneg (i : Int) (h0 : 0 ≤ i) (h1 : i < 2 ^ 64) :
    toSizeT i = i.toNat := by
  unfold toSizeT; omega

theorem toSizeT_natCast (n : Nat) (h : n < 2 ^ 64) : toSizeT (n : Int) = n := by
  unfold toSizeT; omega

theorem toSizeT_succ (i : Int) : toSizeT (i + 1) = (toSizeT i + 1) % 2 ^ 64 := by
  unfold toSizeT; omega

/-! ## Allocation -/

theorem mulSizeT_of_lt (a b : Nat) (h : a * b < 2 ^ 64) : mulSizeT a b = a * b := by
  unfold mulSizeT; exact Nat.mod_eq_of_lt h


/-- For `width` and `height` from 1 to `2 ^ 31`, the region that
`Allocate(width, height)` builds is `(0, 0, width - 1, height - 1)`: neither the
unsigned subtraction nor the conversion to `int` wraps. -/
theorem whRegion_eq (w h : Nat) (hw : 0 < w) (hw31 : w ≤ 2 ^ 31) (hh : 0 < h)
    (hh31 : h ≤ 2 ^ 31) :
    whRegion w h = { x1 := 0, y1 := 0, x2 := (w : Int) - 1, y2 := (h : Int) - 1 } := by
  have hx : toInt32 ((w + (2 ^ 32 - 1)) % 2 ^ 32) = (w : Int) - 1 := by
    unfold toInt32
    rw [if_pos (by omega)]
    simp only [Int.ofNat_eq_coe]; omega
  have hy : toInt32 ((h + (2 ^ 32 - 1)) % 2 ^ 32) = (h : Int) - 1 := by
    unfold toInt32
    rw [if_pos (by omega)]
    simp only [Int.ofNat_eq_coe]; omega
  unfold whRegion
  rw [hx, hy]

/-- Claim C2 fails on the code above `2 ^ 31`. For `width = 2147483649` and
`height = 1`, both positive `unsigned int` values, `width - 1 = 2147483648` does
not fit the `int` coordinate: after `Allocate(width, height)` the region is
`(0, 0, -2147483648, 0)` and not `(0, 0, width - 1, height - 1)`. -/
theorem AllocateWH_region_wraps_above_int_max :
    (0 < 2147483649 ∧ 2147483649 < 2 ^ 32 ∧ 0 < 1)
    ∧ ((ctor ⟨0, 0, 0, 0⟩).AllocateWH 4 (fun _ _ => 4096) 2147483649 1).GetBounds
        = { x1 := 0, y1 := 0, x2 := -2147483648, y2 := 0 }
    ∧ ((ctor ⟨0, 0, 0, 0⟩).AllocateWH 4 (fun _ _ => 4096) 2147483649 1).GetBounds
        ≠ { x1 := 0, y1 := 0, x2 := ((2147483649 : Nat) : Int) - 1,
            y2 := ((1 : Nat) : Int) - 1 } := by
  decide

/-- Claim C2 as amended. For `width` and `height` from 1 to `2 ^ 31`, so that
`width - 1` and `height - 1` are `int` coordinates, after `Allocate(width, height)`
the pitch is a multiple of 64, is at least `width * sizeof(T)`, is less than
`width * sizeof(T) + 64`, and the region is `(0, 0, width - 1, height - 1)`;
`width * sizeof(T) + 63` is assumed not to wrap in `size_t`. -/
theorem AllocateWH_pitch_region (sz : Nat) (aligned_alloc : Nat → Nat → Nat)
    (b : ImageBase) (width height : Nat)
    (hw : 0 < width) (hw31 : width ≤ 2 ^ 31) (hh : 0 < height) (hh31 : height ≤ 2 ^ 31)
    (hov : width * sz + 63 < 2 ^ 64) :
    (b.AllocateWH sz aligned_alloc width height).GetPitch % 64 = 0
    ∧ width * sz ≤ (b.AllocateWH sz aligned_alloc width height).GetPitch
    ∧ (b.AllocateWH sz aligned_alloc width height).GetPitch < width * sz + 64
    ∧ (b.AllocateWH sz aligned_alloc width height).GetBounds
        = { x1 := 0, y1 := 0, x2 := (width : Int) - 1, y2 := (height : Int) - 1 } := by
  have hreg := whRegion_eq width height hw hw31 hh hh31
  have hp : (b.AllocateWH sz aligned_alloc width height).pitch_
      = mulSizeT (addSizeT (mulSizeT width sz) 63 / 64) 64 := by
    simp only [AllocateWH, Allocate, hreg, Bounds.GetWidth]
    have : toSizeT ((width : Int) - 1 - 0 + 1) = width := by
      have : ((width : Int) - 1 - 0 + 1) = (width : Int) := by ring
      rw [this]; exact toSizeT_natCast width (by omega)
    rw [this]
  have hm : mulSizeT width sz = width * sz := mulSizeT_of_lt _ _ (by omega)
  have hpv : (b.AllocateWH sz aligned_alloc width height).pitch_
      = (width * sz + 63) / 64 * 64 := by
    rw [hp, hm]; unfold addSizeT mulSizeT; omega
  refine ⟨?_, ?_, ?_, ?_⟩
  · unfold GetPitch; rw [hpv]; omega
  · unfold GetPitch; rw [hpv]; omega
  · unfold GetPitch; rw [hpv]; omega
  · simp only [GetBounds, AllocateWH, Allocate, hreg]

/-- Witness of claim C2 as amended: a 10 x 10 buffer of 4-byte elements. -/
theorem AllocateWH_pitch_region_witness :
    (0 < 10 ∧ 10 ≤ 2 ^ 31 ∧ 10 * 4 + 63 < 2 ^ 64)
    ∧ ((ctor ⟨0, 0, 0, 0⟩).AllocateWH 4 (fun _ _ => 4096) 10 10).GetPitch % 64 = 0
    ∧ 10 * 4 ≤ ((ctor ⟨0, 0, 0, 0⟩).AllocateWH 4 (fun _ _ => 4096) 10 10).GetPitch
    ∧ ((ctor ⟨0, 0, 0, 0⟩).AllocateWH 4 (fun _ _ => 4096) 10 10).GetPitch < 10 * 4 + 64
    ∧ ((ctor ⟨0, 0, 0, 0⟩).AllocateWH 4 (fun _ _ => 4096) 10 10).GetBounds
        = { x1 := 0, y1 := 0, x2 := ((10 : Nat) : Int) - 1, y2 := ((10 : Nat) : Int) - 1 } :=
  ⟨by decide,
    AllocateWH_pitch_region 4 (fun _ _ => 4096) (ctor ⟨0, 0, 0, 0⟩) 10 10
      (by decide) (by decide) (by decide) (by decide) (by decide)⟩

/-! ## Addressing -/

/-- Stepping an address of row `y` by the pitch gives the address of row `y + 1`,
in arithmetic modulo `2 ^ 64`. -/
theorem GetPtr_step (sz : Nat) (b : ImageBase) (x y : Int) :
    b.GetPtr sz x (y + 1) = ptrAdd (b.GetPtr sz x y) b.pitch_ := by
  have hy : y + 1 - b.region_.y1 = (y - b.region_.y1) + 1 := by ring
  have hm : (toSizeT (y - b.region_.y1 + 1) * b.pitch_) % 2 ^ 64
      = (toSizeT (y - b.region_.y1) * b.pitch_ + b.pitch_) % 2 ^ 64 := by
    rw [toSizeT_succ, Nat.mod_mul_mod, Nat.add_mul, Nat.one_mul]
  unfold GetPtr ptrAdd mulSizeT
  rw [hy]
  generalize toSizeT (y - b.region_.y1 + 1) * b.pitch_ = a1 at hm ⊢
  generalize toSizeT (y - b.region_.y1) * b.pitch_ = a0 at hm ⊢
  generalize toSizeT (x - b.region_.x1) * sz = c
  omega

/-- Claim C7. For every buffer and all coordinates `x`, `y`, the address
`GetPtr(x, y + 1)` equals `GetNextRow(GetPtr(x, y))`: stepping by the pitch is the
same as deriving the address of the next row. -/
theorem GetPtr_succ_row (sz : Nat) (b : ImageBase) (x y : Int) :
    b.GetPtr sz x (y + 1) = b.GetNextRow (b.GetPtr sz x y) :=
  GetPtr_step sz b x y

/-- Claim C8. `GetPtrBnds(x, y)` is `GetPtr` at the clamped coordinate; the clamp
lands in the region and is a nearest point of it on each axis; inside the region
`GetPtrBnds` and `GetPtr` agree; and for the region `[0,0]-[9,9]`,
`GetPtrBnds(-5, 20)` is `GetPtr(0, 9)`. -/
theorem GetPtrBnds_eq_GetPtr_clamp (sz : Nat) (b : ImageBase) (x y : Int) :
    b.GetPtrBnds sz x y = b.GetPtr sz (b.region_.ClampX x) (b.region_.ClampY y)
    ∧ (b.region_.NonDegenerate →
        b.region_.Contains (b.region_.ClampX x) (b.region_.ClampY y)
        ∧ ∀ x0 y0 : Int, b.region_.Contains x0 y0 →
            |b.region_.ClampX x - x| ≤ |x0 - x| ∧ |b.region_.ClampY y - y| ≤ |y0 - y|)
    ∧ (b.region_.Contains x y → b.GetPtrBnds sz x y = b.GetPtr sz x y)
    ∧ (b.region_ = ⟨0, 0, 9, 9⟩ → b.GetPtrBnds sz (-5) 20 = b.GetPtr sz 0 9) := by
  refine ⟨rfl, ?_, ?_, ?_⟩
  · intro hnd
    unfold Bounds.NonDegenerate at hnd
    refine ⟨?_, ?_⟩
    · unfold Bounds.Contains Bounds.ClampX Bounds.ClampY; omega
    · intro x0 y0 hc
      unfold Bounds.Contains at hc
      unfold Bounds.ClampX Bounds.ClampY
      constructor
      · rcases abs_cases (max b.region_.x1 (min x b.region_.x2) - x) with h | h <;>
          rcases abs_cases (x0 - x) with h0 | h0 <;> omega
      · rcases abs_cases (max b.region_.y1 (min y b.region_.y2) - y) with h | h <;>
          rcases abs_cases (y0 - y) with h0 | h0 <;> omega
  · intro hc
    unfold Bounds.Contains at hc
    have hx : b.region_.ClampX x = x := by unfold Bounds.ClampX; omega
    have hy : b.region_.ClampY y = y := by unfold Bounds.ClampY; omega
    unfold GetPtrBnds GetPtr; rw [hx, hy]
  · intro hr
    unfold GetPtrBnds GetPtr; rw [hr]; rfl

/-- Witness of claim C8: the buffer over `[0,0]-[9,9]` with 4-byte elements. -/
theorem GetPtrBnds_eq_GetPtr_clamp_witness :
    (Bounds.NonDegenerate ⟨0, 0, 9, 9⟩ ∧ Bounds.Contains ⟨0, 0, 9, 9⟩ 3 4)
    ∧ GetPtrBnds 4 ⟨4096, 64, ⟨0, 0, 9, 9⟩⟩ 3 4 = GetPtr 4 ⟨4096, 64, ⟨0, 0, 9, 9⟩⟩ 3 4
    ∧ GetPtrBnds 4 ⟨4096, 64, ⟨0, 0, 9, 9⟩⟩ (-5) 20 = GetPtr 4 ⟨4096, 64, ⟨0, 0, 9, 9⟩⟩ 0 9
    ∧ GetPtrBnds 4 ⟨4096, 64, ⟨0, 0, 9, 9⟩⟩ (-5) 20 = 4096 + 9 * 64 :=
  ⟨by decide,
    (GetPtrBnds_eq_GetPtr_clamp 4 ⟨4096, 64, ⟨0, 0, 9, 9⟩⟩ 3 4).2.2.1 (by decide),
    (GetPtrBnds_eq_GetPtr_clamp 4 ⟨4096, 64, ⟨0, 0, 9, 9⟩⟩ 3 4).2.2.2 rfl,
    by decide⟩

/-! ## Move construction and move assignment -/

/-- Claim C6. After move construction the new buffer holds the source's pointer,
pitch and region and the source is empty (not allocated, pitch 0, default
region); the same holds for move assignment between two distinct objects, which
touches no third object; move assignment of an object to itself changes nothing. -/
theorem move_law (dflt : Bounds) (b : ImageBase) (st : ImageStore) (self other : Nat) :
    ((ctorMove dflt b).1 = b
      ∧ (ctorMove dflt b).2.IsAllocated = false
      ∧ (ctorMove dflt b).2.GetPitch = 0
      ∧ (ctorMove dflt b).2.GetBounds = dflt)
    ∧ (self ≠ other →
        moveAssign dflt st self other self = st other
        ∧ (moveAssign dflt st self other other).IsAllocated = false
        ∧ (moveAssign dflt st self other other).GetPitch = 0
        ∧ (moveAssign dflt st self other other).GetBounds = dflt
        ∧ ∀ q, q ≠ self → q ≠ other → moveAssign dflt st self other q = st q)
    ∧ moveAssign dflt st self self = st := by
  refine ⟨⟨rfl, rfl, rfl, rfl⟩, ?_, ?_⟩
  · intro hne
    have hne2 : other ≠ self := fun h => hne h.symm
    refine ⟨?_, ?_, ?_, ?_, ?_⟩
    · simp [moveAssign, ImageStore.set, hne, hne2]
    · simp [moveAssign, ImageStore.set, hne, IsAllocated]
    · simp [moveAssign, ImageStore.set, hne, GetPitch]
    · simp [moveAssign, ImageStore.set, hne, GetBounds]
    · intro q h1 h2
      simp [moveAssign, ImageStore.set, hne, h1, h2]
  · simp [moveAssign]

/-! ## Row-wise copies -/

theorem mul_succ_le (a n k : Nat) (h : a < n) : a * k + k ≤ n * k := by
  have := Nat.mul_le_mul_right k (Nat.succ_le_of_lt h)
  rw [Nat.succ_mul] at this; exact this

theorem toNat_add_toNat (a b c : Int) (h1 : a ≤ b) (h2 : b ≤ c) :
    (c - a).toNat = (b - a).toNat + (c - b).toNat := by omega

/-- The facts about a valid buffer that the address computations use. -/
theorem Valid_facts {sz : Nat} {b : ImageBase} (hv : b.Valid sz) :
    0 < sz ∧ b.region_.x1 ≤ b.region_.x2 ∧ b.region_.y1 ≤ b.region_.y2
    ∧ (b.region_.x2 + 1 - b.region_.x1).toNat * sz ≤ b.pitch_
    ∧ b.ptr_ + (b.region_.y2 + 1 - b.region_.y1).toNat * b.pitch_ ≤ 2 ^ 64
    ∧ b.pitch_ < 2 ^ 64 := by
  obtain ⟨hnz, hsz, ⟨hx, hy⟩, hov, hp, hblk⟩ := hv
  unfold Bounds.GetWidth at hov hp
  unfold Bounds.GetHeight at hblk
  have e1 : b.region_.x2 - b.region_.x1 + 1 = b.region_.x2 + 1 - b.region_.x1 := by ring
  have e2 : b.region_.y2 - b.region_.y1 + 1 = b.region_.y2 + 1 - b.region_.y1 := by ring
  rw [e1] at hov hp
  rw [e2, Nat.mul_comm] at hblk
  have h1 := mul_succ_le 0 (b.region_.y2 + 1 - b.region_.y1).toNat b.pitch_ (by omega)
  refine ⟨hsz, hx, hy, ?_, hblk, by omega⟩
  rw [hp]; omega

/-- Inside the region of a valid buffer no step of `GetPtr` wraps around. -/
theorem GetPtr_of_contains {sz : Nat} {b : ImageBase} (hv : b.Valid sz) {x y : Int}
    (hc : b.region_.Contains x y) :
    b.GetPtr sz x y
      = b.ptr_ + (y - b.region_.y1).toNat * b.pitch_ + (x - b.region_.x1).toNat * sz
    ∧ b.ptr_ + (y - b.region_.y1).toNat * b.pitch_ + (x - b.region_.x1).toNat * sz + sz
        ≤ b.ptr_ + (y - b.region_.y1).toNat * b.pitch_ + b.pitch_
    ∧ b.ptr_ + (y - b.region_.y1).toNat * b.pitch_ + b.pitch_
        ≤ b.ptr_ + (b.region_.y2 + 1 - b.region_.y1).toNat * b.pitch_ := by
  obtain ⟨hsz, hx, hy, hw, hblk, hp64⟩ := Valid_facts hv
  obtain ⟨c1, c2, c3, c4⟩ := hc
  have hdx := mul_succ_le (x - b.region_.x1).toNat (b.region_.x2 + 1 - b.region_.x1).toNat sz
    (by omega)
  have hdy := mul_succ_le (y - b.region_.y1).toNat (b.region_.y2 + 1 - b.region_.y1).toNat
    b.pitch_ (by omega)
  have hpos : 0 < b.pitch_ := by
    have := mul_succ_le 0 (b.region_.x2 + 1 - b.region_.x1).toNat sz (by omega)
    omega
  have hdy64 : (y - b.region_.y1).toNat < 2 ^ 64 := by
    have := Nat.le_mul_of_pos_right (y - b.region_.y1).toNat hpos
    omega
  have hdx64 : (x - b.region_.x1).toNat < 2 ^ 64 := by
    have := Nat.le_mul_of_pos_right (x - b.region_.x1).toNat hsz
    omega
  have ty : toSizeT (y - b.region_.y1) = (y - b.region_.y1).toNat :=
    toSizeT_of_nonneg _ (by omega) (by omega)
  have tx : toSizeT (x - b.region_.x1) = (x - b.region_.x1).toNat :=
    toSizeT_of_nonneg _ (by omega) (by omega)
  refine ⟨?_, by omega, by omega⟩
  unfold GetPtr
  rw [ty, tx, mulSizeT_of_lt _ _ (by omega), mulSizeT_of_lt _ _ (by omega)]
  unfold ptrAdd
  rw [Nat.mod_eq_of_lt (by omega), Nat.mod_eq_of_lt (by omega)]

theorem memcpy_inside (m : Mem) (dst src n a : Nat) (h1 : dst ≤ a) (h2 : a < dst + n) :
    memcpy m dst src n a = m (src + (a - dst)) := by
  unfold memcpy; rw [if_pos ⟨h1, h2⟩]

theorem memcpy_outside (m : Mem) (dst src n a : Nat) (h : ¬ (dst ≤ a ∧ a < dst + n)) :
    memcpy m dst src n a = m a := by
  unfold memcpy; rw [if_neg h]

/-- The pointers handed to the next pass do not matter once no row is left. -/
theorem MemCpyInLoop_congr (b : ImageBase) (pitch size n s1 d1 s2 d2 : Nat) (m : Mem)
    (h : n = 0 ∨ (s1 = s2 ∧ d1 = d2)) :
    MemCpyInLoop b pitch size n s1 d1 m = MemCpyInLoop b pitch size n s2 d2 m := by
  rcases h with h | ⟨h1, h2⟩
  · subst h; rfl
  · rw [h1, h2]

/-- The effect of the copy-in loop: `n` rows of `size` bytes, read with stride
`pitch` from `src` and written with stride `pitch_` from `dst`, when no row
pointer wraps around, destination rows do not overlap one another and no byte
read is a byte written. -/
theorem MemCpyInLoop_spec (b : ImageBase) (pitch size : Nat) :
    ∀ (n src dst : Nat) (m : Mem),
      (∀ i, i < n → src + i * pitch < 2 ^ 64) →
      (∀ i, i < n → dst + i * b.pitch_ < 2 ^ 64) →
      size ≤ b.pitch_ →
      (∀ i, i < n → ∀ j, j < size → ∀ i0, i0 < n →
        ¬ (dst + i0 * b.pitch_ ≤ src + i * pitch + j
            ∧ src + i * pitch + j < dst + i0 * b.pitch_ + size)) →
      (∀ i, i < n → ∀ j, j < size →
        MemCpyInLoop b pitch size n src dst m (dst + i * b.pitch_ + j)
          = m (src + i * pitch + j))
      ∧ (∀ a, (∀ i, i < n → ¬ (dst + i * b.pitch_ ≤ a ∧ a < dst + i * b.pitch_ + size)) →
          MemCpyInLoop b pitch size n src dst m a = m a) := by
  intro n
  induction n with
  | zero =>
    intro src dst m _ _ _ _
    exact ⟨fun i hi => absurd hi (Nat.not_lt_zero i), fun a _ => rfl⟩
  | succ n ih =>
    intro src dst m hs hd hsize hdisj
    have hstep : MemCpyInLoop b pitch size (n + 1) src dst m
        = MemCpyInLoop b pitch size n (src + pitch) (dst + b.pitch_)
            (memcpy m dst src size) := by
      show MemCpyInLoop b pitch size n (ptrAdd src pitch) (b.GetNextRow dst) _ = _
      apply MemCpyInLoop_congr
      rcases Nat.eq_zero_or_pos n with h0 | hpos
      · exact Or.inl h0
      · right
        have h1 := hs 1 (by omega)
        have h2 := hd 1 (by omega)
        rw [Nat.one_mul] at h1 h2
        unfold GetNextRow ptrAdd
        exact ⟨Nat.mod_eq_of_lt h1, Nat.mod_eq_of_lt h2⟩
    have hs2 : ∀ i, i < n → src + pitch + i * pitch < 2 ^ 64 := by
      intro i hi
      have := hs (i + 1) (by omega)
      rw [Nat.succ_mul] at this; omega
    have hd2 : ∀ i, i < n → dst + b.pitch_ + i * b.pitch_ < 2 ^ 64 := by
      intro i hi
      have := hd (i + 1) (by omega)
      rw [Nat.succ_mul] at this; omega
    have hdisj2 : ∀ i, i < n → ∀ j, j < size → ∀ i0, i0 < n →
        ¬ (dst + b.pitch_ + i0 * b.pitch_ ≤ src + pitch + i * pitch + j
            ∧ src + pitch + i * pitch + j < dst + b.pitch_ + i0 * b.pitch_ + size) := by
      intro i hi j hj i0 hi0
      have := hdisj (i + 1) (by omega) j hj (i0 + 1) (by omega)
      rw [Nat.succ_mul, Nat.succ_mul] at this; omega
    obtain ⟨iha, ihb⟩ := ih (src + pitch) (dst + b.pitch_) (memcpy m dst src size)
      hs2 hd2 hsize hdisj2
    rw [hstep]
    constructor
    · intro i hi j hj
      rcases Nat.eq_zero_or_pos i with h0 | hpos
      · subst h0
        rw [ihb]
        · rw [memcpy_inside _ _ _ _ _ (by omega) (by omega)]
          congr 1; omega
        · intro i0 _; omega
      · obtain ⟨k, rfl⟩ : ∃ k, i = k + 1 := ⟨i - 1, by omega⟩
        have e1 : dst + (k + 1) * b.pitch_ + j = dst + b.pitch_ + k * b.pitch_ + j := by
          rw [Nat.succ_mul]; omega
        have e2 : src + (k + 1) * pitch + j = src + pitch + k * pitch + j := by
          rw [Nat.succ_mul]; omega
        rw [e1, e2, iha k (by omega) j hj]
        apply memcpy_outside
        have := hdisj (k + 1) hi j hj 0 (by omega)
        rw [Nat.zero_mul, e2] at this
        omega
    · intro a ha
      rw [ihb]
      · apply memcpy_outside
        have := ha 0 (by omega)
        rw [Nat.zero_mul] at this
        omega
      · intro i hi
        have := ha (i + 1) (by omega)
        rw [Nat.succ_mul] at this; omega

theorem InStorage_iff (b : ImageBase) (a : Nat) :
    b.InStorage a ↔
      b.ptr_ ≤ a ∧ a < b.ptr_ + (b.region_.y2 + 1 - b.region_.y1).toNat * b.pitch_ := by
  unfold InStorage Bounds.GetHeight
  have e : b.region_.y2 - b.region_.y1 + 1 = b.region_.y2 + 1 - b.region_.y1 := by ring
  rw [e, Nat.mul_comm]

/-- Addresses of the pixels of a rectangle `r` inside the region of a valid
buffer, relative to the address of the first pixel of `r`; every row of `r` lies
in the storage block. -/
theorem GetPtr_in_sub {sz : Nat} {b : ImageBase} (hv : b.Valid sz) {r : Bounds}
    (hin : r.Within b.region_) {x y : Int} (hc : r.Contains x y) :
    b.GetPtr sz x y
      = b.GetPtr sz r.x1 r.y1 + (y - r.y1).toNat * b.pitch_ + (x - r.x1).toNat * sz
    ∧ b.ptr_ ≤ b.GetPtr sz r.x1 r.y1 + (y - r.y1).toNat * b.pitch_
    ∧ b.GetPtr sz r.x1 r.y1 + (y - r.y1).toNat * b.pitch_ + (r.x2 + 1 - r.x1).toNat * sz
        ≤ b.ptr_ + (b.region_.y2 + 1 - b.region_.y1).toNat * b.pitch_ := by
  obtain ⟨i1, i2, i3, i4⟩ := hin
  obtain ⟨c1, c2, c3, c4⟩ := hc
  obtain ⟨g0, _, _⟩ := GetPtr_of_contains hv
    (show b.region_.Contains r.x1 r.y1 from ⟨by omega, by omega, by omega, by omega⟩)
  obtain ⟨g1, _, _⟩ := GetPtr_of_contains hv
    (show b.region_.Contains x y from ⟨by omega, by omega, by omega, by omega⟩)
  obtain ⟨_, g2, g3⟩ := GetPtr_of_contains hv
    (show b.region_.Contains r.x2 y from ⟨by omega, by omega, by omega, by omega⟩)
  have ey : (y - b.region_.y1).toNat * b.pitch_
      = (r.y1 - b.region_.y1).toNat * b.pitch_ + (y - r.y1).toNat * b.pitch_ := by
    rw [toNat_add_toNat b.region_.y1 r.y1 y i3 c3, Nat.add_mul]
  have ex : (x - b.region_.x1).toNat * sz
      = (r.x1 - b.region_.x1).toNat * sz + (x - r.x1).toNat * sz := by
    rw [toNat_add_toNat b.region_.x1 r.x1 x i1 c1, Nat.add_mul]
  have ex2 : (r.x2 - b.region_.x1).toNat * sz + sz
      = (r.x1 - b.region_.x1).toNat * sz + (r.x2 + 1 - r.x1).toNat * sz := by
    have h1 : (r.x2 + 1 - r.x1).toNat = (r.x2 - r.x1).toNat + 1 := by omega
    rw [toNat_add_toNat b.region_.x1 r.x1 r.x2 i1 (by omega), Nat.add_mul, h1,
      Nat.succ_mul]
    omega
  rw [g0, g1]
  refine ⟨by omega, by omega, by omega⟩

/-- The byte size of a row of a rectangle inside the region of a valid buffer, as
the copy members compute it. -/
theorem rowSize_sub {sz : Nat} {b : ImageBase} (hv : b.Valid sz) {r : Bounds}
    (hr : r.NonDegenerate) (hin : r.Within b.region_) :
    mulSizeT (toSizeT r.GetWidth) sz = (r.x2 + 1 - r.x1).toNat * sz
    ∧ (r.x2 + 1 - r.x1).toNat * sz ≤ b.pitch_ := by
  obtain ⟨hsz, hx, hy, hw, hblk, hp64⟩ := Valid_facts hv
  obtain ⟨i1, i2, i3, i4⟩ := hin
  obtain ⟨r1, r2⟩ := hr
  have hle : (r.x2 + 1 - r.x1).toNat * sz ≤ (b.region_.x2 + 1 - b.region_.x1).toNat * sz :=
    Nat.mul_le_mul_right sz (by omega)
  have hpos : 0 < (r.x2 + 1 - r.x1).toNat := by omega
  have hW : (r.x2 + 1 - r.x1).toNat < 2 ^ 64 := by
    have := Nat.le_mul_of_pos_right (r.x2 + 1 - r.x1).toNat hsz
    omega
  have e : r.GetWidth = r.x2 + 1 - r.x1 := by unfold Bounds.GetWidth; ring
  rw [e, toSizeT_of_nonneg _ (by omega) (by omega), mulSizeT_of_lt _ _ (by omega)]
  exact ⟨rfl, by omega⟩

/-- The effect of `MemCpyIn(ptr, pitch, region)` on a valid buffer, for a
rectangle inside its region and source rows that lie outside its storage. -/
theorem MemCpyInRegion_spec {sz : Nat} {b : ImageBase} (hv : b.Valid sz) {r : Bounds}
    (hr : r.NonDegenerate) (hin : r.Within b.region_) (src pitch : Nat) (m : Mem)
    (hs : ∀ i, i < rowCount r.y1 r.y2 → src + i * pitch < 2 ^ 64)
    (hdisj : ∀ i, i < rowCount r.y1 r.y2 → ∀ j, j < (r.x2 + 1 - r.x1).toNat * sz →
      ¬ b.InStorage (src + i * pitch + j)) :
    (∀ x y, r.Contains x y → ∀ k, k < sz →
      b.MemCpyInRegion sz src pitch r m (b.GetPtr sz x y + k)
        = m (src + (y - r.y1).toNat * pitch + ((x - r.x1).toNat * sz + k)))
    ∧ (∀ a, (∀ x y, r.Contains x y → ∀ k, k < sz → a ≠ b.GetPtr sz x y + k) →
        b.MemCpyInRegion sz src pitch r m a = m a) := by
  obtain ⟨hsz, hx, hy, hw, hblk, hp64⟩ := Valid_facts hv
  obtain ⟨hsize, hsle⟩ := rowSize_sub hv hr hin
  obtain ⟨r1, r2⟩ := hr
  have hrow : ∀ i, i < rowCount r.y1 r.y2 →
      r.Contains r.x1 (r.y1 + (i : Int)) ∧ ((r.y1 + (i : Int)) - r.y1).toNat = i := by
    intro i hi
    unfold rowCount at hi
    exact ⟨⟨by omega, by omega, by omega, by omega⟩, by omega⟩
  have hd : ∀ i, i < rowCount r.y1 r.y2 →
      b.ptr_ ≤ b.GetPtr sz r.x1 r.y1 + i * b.pitch_
      ∧ b.GetPtr sz r.x1 r.y1 + i * b.pitch_ + (r.x2 + 1 - r.x1).toNat * sz
          ≤ b.ptr_ + (b.region_.y2 + 1 - b.region_.y1).toNat * b.pitch_ := by
    intro i hi
    obtain ⟨hc, hidx⟩ := hrow i hi
    obtain ⟨_, g2, g3⟩ := GetPtr_in_sub hv hin hc
    rw [hidx] at g2 g3
    exact ⟨g2, g3⟩
  have hWpos : 0 < (r.x2 + 1 - r.x1).toNat * sz :=
    Nat.mul_pos (by omega) hsz
  obtain ⟨la, lb⟩ := MemCpyInLoop_spec b pitch ((r.x2 + 1 - r.x1).toNat * sz)
    (rowCount r.y1 r.y2) src (b.GetPtr sz r.x1 r.y1) m hs
    (fun i hi => by have := hd i hi; omega) hsle
    (fun i hi j hj i0 hi0 => by
      have h1 := hdisj i hi j hj
      rw [InStorage_iff] at h1
      have h2 := hd i0 hi0
      omega)
  unfold MemCpyInRegion
  rw [hsize]
  constructor
  · intro x y hc k hk
    obtain ⟨g1, _, _⟩ := GetPtr_in_sub hv hin hc
    obtain ⟨c1, c2, c3, c4⟩ := hc
    have hj := mul_succ_le (x - r.x1).toNat (r.x2 + 1 - r.x1).toNat sz (by omega)
    have := la (y - r.y1).toNat (by unfold rowCount; omega)
      ((x - r.x1).toNat * sz + k) (by omega)
    rw [g1, Nat.add_assoc _ ((x - r.x1).toNat * sz) k]
    exact this
  · intro a ha
    apply lb
    intro i hi hrange
    obtain ⟨hc, hidx⟩ := hrow i hi
    obtain ⟨q, k, hq, hk, hqk⟩ : ∃ q k, q < (r.x2 + 1 - r.x1).toNat ∧ k < sz
        ∧ a = b.GetPtr sz r.x1 r.y1 + i * b.pitch_ + q * sz + k := by
      refine ⟨(a - (b.GetPtr sz r.x1 r.y1 + i * b.pitch_)) / sz,
        (a - (b.GetPtr sz r.x1 r.y1 + i * b.pitch_)) % sz, ?_, Nat.mod_lt _ hsz, ?_⟩
      · apply Nat.div_lt_of_lt_mul
        rw [Nat.mul_comm sz]; omega
      · have := Nat.div_add_mod (a - (b.GetPtr sz r.x1 r.y1 + i * b.pitch_)) sz
        rw [Nat.mul_comm sz] at this
        omega
    have hcx : r.Contains (r.x1 + (q : Int)) (r.y1 + (i : Int)) := by
      obtain ⟨_, _, c3, c4⟩ := hc
      exact ⟨by omega, by omega, c3, c4⟩
    obtain ⟨g1, _, _⟩ := GetPtr_in_sub hv hin hcx
    have hxi : (r.x1 + (q : Int) - r.x1).toNat = q := by omega
    rw [hidx, hxi] at g1
    apply ha _ _ hcx k hk
    rw [g1]; exact hqk

/-- Every byte of an in-region pixel of a valid buffer lies in its storage block. -/
theorem pixel_in_storage {sz : Nat} {b : ImageBase} (hv : b.Valid sz) {x y : Int}
    (hc : b.region_.Contains x y) {k : Nat} (hk : k < sz) :
    b.InStorage (b.GetPtr sz x y + k) := by
  obtain ⟨g1, g2, g3⟩ := GetPtr_of_contains hv hc
  rw [InStorage_iff, g1]
  omega

theorem contains_of_within {r outer : Bounds} (hin : r.Within outer) {x y : Int}
    (hc : r.Contains x y) : outer.Contains x y := by
  obtain ⟨i1, i2, i3, i4⟩ := hin
  obtain ⟨c1, c2, c3, c4⟩ := hc
  exact ⟨by omega, by omega, by omega, by omega⟩

/-- Claim C9. Copy-in from host memory. For a valid buffer, a rectangle `r` inside
its region and host rows that lie in the address space and outside the buffer's
storage: after `MemCpyIn(src, srcPitch, r)` every byte of the element at
`GetPtr(x, y)`, for `(x, y)` in `r`, is the host byte at offset
`(y - r.y1) * srcPitch + (x - r.x1) * sizeof(T)` from `src`; every byte of the
storage that belongs to no pixel of `r` is unchanged; no byte outside the storage
is written; and `MemCpyIn(src, srcPitch)` is `MemCpyIn(src, srcPitch, region_)`. -/
theorem MemCpyIn_from_host (sz : Nat) (b : ImageBase) (src srcPitch : Nat) (r : Bounds)
    (m : Mem) (hv : b.Valid sz) (hr : r.NonDegenerate) (hin : r.Within b.region_)
    (hhost : ∀ i, i < rowCount r.y1 r.y2 → ∀ j, j < (r.x2 + 1 - r.x1).toNat * sz →
      src + i * srcPitch + j < 2 ^ 64 ∧ ¬ b.InStorage (src + i * srcPitch + j)) :
    (∀ x y, r.Contains x y → ∀ k, k < sz →
      b.MemCpyInRegion sz src srcPitch r m (b.GetPtr sz x y + k)
        = m (src + (y - r.y1).toNat * srcPitch + (x - r.x1).toNat * sz + k))
    ∧ (∀ a, b.InStorage a →
        (∀ x y, r.Contains x y → ∀ k, k < sz → a ≠ b.GetPtr sz x y + k) →
        b.MemCpyInRegion sz src srcPitch r m a = m a)
    ∧ (∀ a, ¬ b.InStorage a → b.MemCpyInRegion sz src srcPitch r m a = m a)
    ∧ b.MemCpyIn sz src srcPitch m = b.MemCpyInRegion sz src srcPitch b.region_ m := by
  obtain ⟨hsz, _, _, _, _, _⟩ := Valid_facts hv
  have hWpos : 0 < (r.x2 + 1 - r.x1).toNat * sz :=
    Nat.mul_pos (by obtain ⟨r1, _⟩ := hr; omega) hsz
  obtain ⟨sa, sb⟩ := MemCpyInRegion_spec hv hr hin src srcPitch m
    (fun i hi => by have := (hhost i hi 0 hWpos).1; omega)
    (fun i hi j hj => (hhost i hi j hj).2)
  refine ⟨?_, ?_, ?_, rfl⟩
  · intro x y hc k hk
    rw [sa x y hc k hk, Nat.add_assoc _ ((x - r.x1).toNat * sz) k]
  · intro a _ ha
    exact sb a ha
  · intro a ha
    apply sb
    intro x y hc k hk heq
    exact ha (heq ▸ pixel_in_storage hv (contains_of_within hin hc) hk)

/-- Witness of claim C9: the buffer over `[0,0]-[9,9]` at address 4096 with 4-byte
elements, the rectangle `[5,5]-[9,9]`, host rows of stride 20 at address 8192. -/
theorem MemCpyIn_from_host_witness :
    (Valid 4 ⟨4096, 64, ⟨0, 0, 9, 9⟩⟩ ∧ Bounds.NonDegenerate ⟨5, 5, 9, 9⟩
      ∧ Bounds.Within ⟨5, 5, 9, 9⟩ ⟨0, 0, 9, 9⟩)
    ∧ (∀ x y, Bounds.Contains ⟨5, 5, 9, 9⟩ x y → ∀ k, k < 4 →
        MemCpyInRegion 4 ⟨4096, 64, ⟨0, 0, 9, 9⟩⟩ 8192 20 ⟨5, 5, 9, 9⟩ (fun a => a % 251)
            (GetPtr 4 ⟨4096, 64, ⟨0, 0, 9, 9⟩⟩ x y + k)
          = (8192 + (y - 5).toNat * 20 + (x - 5).toNat * 4 + k) % 251) :=
  ⟨by decide,
    (MemCpyIn_from_host 4 ⟨4096, 64, ⟨0, 0, 9, 9⟩⟩ 8192 20 ⟨5, 5, 9, 9⟩ (fun a => a % 251)
      (by decide) (by decide) (by decide) (by decide)).1⟩

/-- The effect of `MemCpyIn(source_image, region)` for two valid buffers with
disjoint storage and a rectangle inside both regions. -/
theorem MemCpyInImageRegion_spec {sz : Nat} {A B : ImageBase} (hA : A.Valid sz)
    (hB : B.Valid sz) (hd : A.StorageDisjoint B) {r : Bounds} (hr : r.NonDegenerate)
    (hinA : r.Within A.region_) (hinB : r.Within B.region_) (m : Mem) :
    (∀ x y, r.Contains x y → ∀ k, k < sz →
      A.MemCpyInImageRegion sz B r m (A.GetPtr sz x y + k) = m (B.GetPtr sz x y + k))
    ∧ (∀ a, (∀ x y, r.Contains x y → ∀ k, k < sz → a ≠ A.GetPtr sz x y + k) →
        A.MemCpyInImageRegion sz B r m a = m a) := by
  obtain ⟨hsz, _, _, _, hblkB, _⟩ := Valid_facts hB
  obtain ⟨r1, r2⟩ := hr
  have hWpos : 0 < (r.x2 + 1 - r.x1).toNat * sz := Nat.mul_pos (by omega) hsz
  have hrow : ∀ i, i < rowCount r.y1 r.y2 →
      B.ptr_ ≤ B.GetPtr sz r.x1 r.y1 + i * B.pitch_
      ∧ B.GetPtr sz r.x1 r.y1 + i * B.pitch_ + (r.x2 + 1 - r.x1).toNat * sz
          ≤ B.ptr_ + (B.region_.y2 + 1 - B.region_.y1).toNat * B.pitch_ := by
    intro i hi
    unfold rowCount at hi
    have hc : r.Contains r.x1 (r.y1 + (i : Int)) := ⟨by omega, by omega, by omega, by omega⟩
    have hidx : ((r.y1 + (i : Int)) - r.y1).toNat = i := by omega
    obtain ⟨_, g2, g3⟩ := GetPtr_in_sub hB hinB hc
    rw [hidx] at g2 g3
    exact ⟨g2, g3⟩
  obtain ⟨sa, sb⟩ := MemCpyInRegion_spec hA ⟨r1, r2⟩ hinA (B.GetPtr sz r.x1 r.y1)
    B.pitch_ m
    (fun i hi => by have := hrow i hi; omega)
    (fun i hi j hj => by
      have h1 := hrow i hi
      have e := InStorage_iff B (B.GetPtr sz r.x1 r.y1 + i * B.pitch_ + j)
      unfold StorageDisjoint at hd
      unfold InStorage at e ⊢
      omega)
  unfold MemCpyInImageRegion GetPitch
  refine ⟨?_, sb⟩
  intro x y hc k hk
  obtain ⟨g1, _, _⟩ := GetPtr_in_sub hB hinB hc
  rw [sa x y hc k hk, g1]
  congr 1; omega

/-- Claim C3. Intersection copy. For two valid buffers `A` and `B` with disjoint
storage whose regions overlap, after `A.MemCpyIn(B)` every byte of every pixel
`(x, y)` lying in both regions equals in `A` the byte `B` holds for that pixel;
every byte of the storage of `A` that belongs to no such pixel is unchanged; and
no byte outside the storage of `A`, so no byte of `B`, is changed. -/
theorem MemCpyIn_intersection (sz : Nat) (A B : ImageBase) (m : Mem)
    (hA : A.Valid sz) (hB : B.Valid sz) (hd : A.StorageDisjoint B)
    (hov : ∃ x y, A.region_.Contains x y ∧ B.region_.Contains x y) :
    (∀ x y, A.region_.Contains x y → B.region_.Contains x y → ∀ k, k < sz →
      A.MemCpyInImage sz B m (A.GetPtr sz x y + k) = m (B.GetPtr sz x y + k))
    ∧ (∀ a, A.InStorage a →
        (∀ x y, A.region_.Contains x y → B.region_.Contains x y → ∀ k, k < sz →
          a ≠ A.GetPtr sz x y + k) →
        A.MemCpyInImage sz B m a = m a)
    ∧ (∀ a, ¬ A.InStorage a → A.MemCpyInImage sz B m a = m a)
    ∧ (∀ a, B.InStorage a → A.MemCpyInImage sz B m a = m a) := by
  obtain ⟨x0, y0, ⟨a1, a2, a3, a4⟩, ⟨b1, b2, b3, b4⟩⟩ := hov
  have hr : (B.region_.GetIntersection A.region_).NonDegenerate := by
    unfold Bounds.NonDegenerate Bounds.GetIntersection; simp only; omega
  have hinA : (B.region_.GetIntersection A.region_).Within A.region_ := by
    unfold Bounds.Within Bounds.GetIntersection; simp only; omega
  have hinB : (B.region_.GetIntersection A.region_).Within B.region_ := by
    unfold Bounds.Within Bounds.GetIntersection; simp only; omega
  have hiff : ∀ x y, (B.region_.GetIntersection A.region_).Contains x y ↔
      (A.region_.Contains x y ∧ B.region_.Contains x y) := by
    intro x y
    unfold Bounds.Contains Bounds.GetIntersection; simp only; omega
  obtain ⟨sa, sb⟩ := MemCpyInImageRegion_spec hA hB hd hr hinA hinB m
  have hdef : A.MemCpyInImage sz B m
      = A.MemCpyInImageRegion sz B (B.region_.GetIntersection A.region_) m := rfl
  rw [hdef]
  have hout : ∀ a, ¬ A.InStorage a →
      A.MemCpyInImageRegion sz B (B.region_.GetIntersection A.region_) m a = m a := by
    intro a ha
    apply sb
    intro x y hc k hk heq
    exact ha (heq ▸ pixel_in_storage hA (contains_of_within hinA hc) hk)
  refine ⟨?_, ?_, hout, ?_⟩
  · intro x y hcA hcB k hk
    exact sa x y ((hiff x y).2 ⟨hcA, hcB⟩) k hk
  · intro a _ ha
    apply sb
    intro x y hc k hk
    exact ha x y ((hiff x y).1 hc).1 ((hiff x y).1 hc).2 k hk
  · intro a ha
    apply hout
    unfold StorageDisjoint at hd
    unfold InStorage at ha ⊢
    omega

/-- Witness of claim C3: `A` over `[0,0]-[9,9]` at address 4096 and `B` over
`[5,5]-[14,14]` at address 8192, 4-byte elements; the two regions share
`[5,5]-[9,9]`. -/
theorem MemCpyIn_intersection_witness :
    (Valid 4 ⟨4096, 64, ⟨0, 0, 9, 9⟩⟩ ∧ Valid 4 ⟨8192, 64, ⟨5, 5, 14, 14⟩⟩
      ∧ StorageDisjoint ⟨4096, 64, ⟨0, 0, 9, 9⟩⟩ ⟨8192, 64, ⟨5, 5, 14, 14⟩⟩
      ∧ Bounds.GetIntersection ⟨5, 5, 14, 14⟩ ⟨0, 0, 9, 9⟩ = ⟨5, 5, 9, 9⟩)
    ∧ (∀ x y, Bounds.Contains ⟨0, 0, 9, 9⟩ x y → Bounds.Contains ⟨5, 5, 14, 14⟩ x y →
        ∀ k, k < 4 →
        MemCpyInImage 4 ⟨4096, 64, ⟨0, 0, 9, 9⟩⟩ ⟨8192, 64, ⟨5, 5, 14, 14⟩⟩
            (fun a => a % 251) (GetPtr 4 ⟨4096, 64, ⟨0, 0, 9, 9⟩⟩ x y + k)
          = (GetPtr 4 ⟨8192, 64, ⟨5, 5, 14, 14⟩⟩ x y + k) % 251) :=
  ⟨by decide,
    (MemCpyIn_intersection 4 ⟨4096, 64, ⟨0, 0, 9, 9⟩⟩ ⟨8192, 64, ⟨5, 5, 14, 14⟩⟩
      (fun a => a % 251) (by decide) (by decide) (by decide)
      ⟨5, 5, by decide, by decide⟩).1⟩

/-! ## Deep copy -/

/-- The pitch that `Allocate` computes for a region of positive width when
`width * sizeof(T) + 63` does not wrap around. -/
theorem Allocate_pitch_eq (sz : Nat) (region : Bounds) (hx : region.x1 ≤ region.x2)
    (hov : region.GetWidth.toNat * sz + 63 < 2 ^ 64) (hsz : 0 < sz) :
    mulSizeT (addSizeT (mulSizeT (toSizeT region.GetWidth) sz) 63 / 64) 64
      = (region.GetWidth.toNat * sz + 63) / 64 * 64 := by
  have hW : region.GetWidth.toNat < 2 ^ 64 := by
    have := Nat.le_mul_of_pos_right region.GetWidth.toNat hsz
    omega
  have hnn : 0 ≤ region.GetWidth := by unfold Bounds.GetWidth; omega
  rw [toSizeT_of_nonneg _ hnn (by omega),
    mulSizeT_of_lt region.GetWidth.toNat sz (by omega)]
  unfold addSizeT mulSizeT
  omega

/-- The buffer that `Allocate` leaves, for a request that does not wrap around:
whatever the buffer held before, its fields are the allocator's result, the
rounded pitch and the requested region. -/
theorem Allocate_eq (sz : Nat) (aligned_alloc : Nat → Nat → Nat) (b : ImageBase)
    (region : Bounds) (hr : region.NonDegenerate) (hsz : 0 < sz)
    (hov : region.GetWidth.toNat * sz + 63 < 2 ^ 64)
    (hblk : (region.GetWidth.toNat * sz + 63) / 64 * 64 * region.GetHeight.toNat < 2 ^ 64) :
    b.Allocate sz aligned_alloc region
      = { ptr_ := aligned_alloc 64
            ((region.GetWidth.toNat * sz + 63) / 64 * 64 * region.GetHeight.toNat),
          pitch_ := (region.GetWidth.toNat * sz + 63) / 64 * 64,
          region_ := region } := by
  obtain ⟨hx, hy⟩ := hr
  have hp := Allocate_pitch_eq sz region hx hov hsz
  have hH : region.GetHeight.toNat < 2 ^ 64 := by
    have hpos : 0 < (region.GetWidth.toNat * sz + 63) / 64 * 64 := by
      have : 0 < region.GetWidth.toNat := by unfold Bounds.GetWidth; omega
      have := Nat.mul_pos this hsz
      omega
    have := Nat.le_mul_of_pos_left region.GetHeight.toNat hpos
    omega
  have hnn : 0 ≤ region.GetHeight := by unfold Bounds.GetHeight; omega
  have hh : toSizeT region.GetHeight = region.GetHeight.toNat :=
    toSizeT_of_nonneg _ hnn (by omega)
  unfold Allocate
  simp only [hp, hh, mulSizeT_of_lt _ _ hblk]

/-- The loop of `Copy` is the copy-in loop started at the first pixel of row `y`
of both buffers. -/
theorem CopyLoop_eq (sz : Nat) (c other : ImageBase) :
    ∀ (n : Nat) (y : Int) (m : Mem),
      CopyLoop sz c other n y m
        = MemCpyInLoop c other.pitch_ (mulSizeT (toSizeT c.region_.GetWidth) sz) n
            (other.GetPtr sz other.region_.x1 y) (c.GetPtr sz c.region_.x1 y) m := by
  intro n
  induction n with
  | zero => intro y m; rfl
  | succ n ih =>
    intro y m
    show CopyLoop sz c other n (y + 1) _ = MemCpyInLoop c other.pitch_ _ n
      (ptrAdd (other.GetPtr sz other.region_.x1 y) other.pitch_)
      (c.GetNextRow (c.GetPtr sz c.region_.x1 y)) _
    rw [ih, GetPtr_step sz other, GetPtr_step sz c]
    rfl

/-- The result of `Copy` from a valid buffer `b` when the allocator answers the
request with the address `p`: the new buffer is `b` with the pointer `p`, and
the heap is the one `MemCpyIn(b, region)` leaves. -/
theorem Copy_eq (sz : Nat) (aligned_alloc : Nat → Nat → Nat) (c0 b : ImageBase) (m : Mem)
    (hb : b.Valid sz) :
    Copy sz aligned_alloc c0 b m
      = ({ ptr_ := aligned_alloc 64 (b.pitch_ * b.region_.GetHeight.toNat),
           pitch_ := b.pitch_, region_ := b.region_ },
         MemCpyInImageRegion sz
           { ptr_ := aligned_alloc 64 (b.pitch_ * b.region_.GetHeight.toNat),
             pitch_ := b.pitch_, region_ := b.region_ } b b.region_ m) := by
  obtain ⟨hnz, hsz, hnd, hov, hp, hblk⟩ := hb
  have hblk2 : (b.region_.GetWidth.toNat * sz + 63) / 64 * 64 * b.region_.GetHeight.toNat
      < 2 ^ 64 := by
    rw [← hp]; omega
  unfold Copy
  simp only [Allocate_eq sz aligned_alloc _ b.region_ hnd hsz hov hblk2, ← hp]
  rw [CopyLoop_eq]
  rfl

/-- The deep-copy properties of `Copy`, whatever the receiving buffer held. -/
theorem Copy_deep (sz : Nat) (aligned_alloc : Nat → Nat → Nat) (c0 b : ImageBase)
    (m : Mem) (hb : b.Valid sz)
    (hnull : aligned_alloc 64 (b.pitch_ * b.region_.GetHeight.toNat) ≠ 0)
    (hfit : aligned_alloc 64 (b.pitch_ * b.region_.GetHeight.toNat)
      + b.pitch_ * b.region_.GetHeight.toNat ≤ 2 ^ 64)
    (hfresh : aligned_alloc 64 (b.pitch_ * b.region_.GetHeight.toNat)
        + b.pitch_ * b.region_.GetHeight.toNat ≤ b.ptr_
      ∨ b.ptr_ + b.pitch_ * b.region_.GetHeight.toNat
        ≤ aligned_alloc 64 (b.pitch_ * b.region_.GetHeight.toNat)) :
    (Copy sz aligned_alloc c0 b m).1.GetBounds = b.GetBounds
    ∧ (Copy sz aligned_alloc c0 b m).1.GetPitch = b.GetPitch
    ∧ (∀ x y, b.region_.Contains x y → ∀ k, k < sz →
        (Copy sz aligned_alloc c0 b m).2 ((Copy sz aligned_alloc c0 b m).1.GetPtr sz x y + k)
          = (Copy sz aligned_alloc c0 b m).2 (b.GetPtr sz x y + k))
    ∧ (∀ a, b.InStorage a → (Copy sz aligned_alloc c0 b m).2 a = m a) := by
  rw [Copy_eq sz aligned_alloc c0 b m hb]
  generalize aligned_alloc 64 (b.pitch_ * b.region_.GetHeight.toNat) = p at *
  have hc : Valid sz { ptr_ := p, pitch_ := b.pitch_, region_ := b.region_ } := by
    obtain ⟨_, hsz, hnd, hov, hp, _⟩ := hb
    exact ⟨hnull, hsz, hnd, hov, hp, hfit⟩
  have hd : StorageDisjoint { ptr_ := p, pitch_ := b.pitch_, region_ := b.region_ } b :=
    hfresh
  have hnd : b.region_.NonDegenerate := hb.2.2.1
  have hin : b.region_.Within b.region_ := ⟨le_refl _, le_refl _, le_refl _, le_refl _⟩
  obtain ⟨sa, sb⟩ := MemCpyInImageRegion_spec hc hb hd hnd hin hin m
  have hkeep : ∀ a, b.InStorage a →
      MemCpyInImageRegion sz { ptr_ := p, pitch_ := b.pitch_, region_ := b.region_ } b
        b.region_ m a = m a := by
    intro a ha
    apply sb
    intro x y hxy k hk heq
    have h1 : InStorage { ptr_ := p, pitch_ := b.pitch_, region_ := b.region_ } a :=
      heq ▸ pixel_in_storage hc hxy hk
    unfold StorageDisjoint at hd
    unfold InStorage at ha h1
    simp only at hd h1
    omega
  refine ⟨rfl, rfl, ?_, hkeep⟩
  intro x y hxy k hk
  simp only
  rw [sa x y hxy k hk, hkeep _ (pixel_in_storage hb hxy hk)]

/-- Claim C5. Deep-copy law. For a valid buffer `b` and an allocator that answers
the request of `Copy` with a block in the address space that is disjoint from the
storage of `b`: after copy assignment into any other buffer `c0` and after copy
construction, the new buffer has the region and the pitch of `b`, every byte of
every in-region element is the same in both buffers, and the storage of `b` holds
what it held before. -/
theorem deep_copy_law (sz : Nat) (aligned_alloc : Nat → Nat → Nat) (dflt : Bounds)
    (c0 b : ImageBase) (m : Mem) (hb : b.Valid sz)
    (hnull : aligned_alloc 64 (b.pitch_ * b.region_.GetHeight.toNat) ≠ 0)
    (hfit : aligned_alloc 64 (b.pitch_ * b.region_.GetHeight.toNat)
      + b.pitch_ * b.region_.GetHeight.toNat ≤ 2 ^ 64)
    (hfresh : aligned_alloc 64 (b.pitch_ * b.region_.GetHeight.toNat)
        + b.pitch_ * b.region_.GetHeight.toNat ≤ b.ptr_
      ∨ b.ptr_ + b.pitch_ * b.region_.GetHeight.toNat
        ≤ aligned_alloc 64 (b.pitch_ * b.region_.GetHeight.toNat)) :
    ((assignCopy sz aligned_alloc c0 b m).1.GetBounds = b.GetBounds
      ∧ (assignCopy sz aligned_alloc c0 b m).1.GetPitch = b.GetPitch
      ∧ (∀ x y, b.region_.Contains x y → ∀ k, k < sz →
          (assignCopy sz aligned_alloc c0 b m).2
              ((assignCopy sz aligned_alloc c0 b m).1.GetPtr sz x y + k)
            = (assignCopy sz aligned_alloc c0 b m).2 (b.GetPtr sz x y + k))
      ∧ (∀ a, b.InStorage a → (assignCopy sz aligned_alloc c0 b m).2 a = m a))
    ∧ ((ctorCopy sz aligned_alloc dflt b m).1.GetBounds = b.GetBounds
      ∧ (ctorCopy sz aligned_alloc dflt b m).1.GetPitch = b.GetPitch
      ∧ (∀ x y, b.region_.Contains x y → ∀ k, k < sz →
          (ctorCopy sz aligned_alloc dflt b m).2
              ((ctorCopy sz aligned_alloc dflt b m).1.GetPtr sz x y + k)
            = (ctorCopy sz aligned_alloc dflt b m).2 (b.GetPtr sz x y + k))
      ∧ (∀ a, b.InStorage a → (ctorCopy sz aligned_alloc dflt b m).2 a = m a)) :=
  ⟨Copy_deep sz aligned_alloc c0 b m hb hnull hfit hfresh,
    Copy_deep sz aligned_alloc _ b m hb hnull hfit hfresh⟩

/-- Witness of claim C5: the buffer over `[0,0]-[9,9]` at address 4096 with 4-byte
elements, copied into a block that the allocator places at address 8192. -/
theorem deep_copy_law_witness :
    (Valid 4 ⟨4096, 64, ⟨0, 0, 9, 9⟩⟩ ∧ (8192 : Nat) ≠ 0 ∧ 8192 + 64 * 10 ≤ 2 ^ 64
      ∧ 4096 + 64 * 10 ≤ 8192)
    ∧ (ctorCopy 4 (fun _ _ => 8192) ⟨0, 0, 0, 0⟩ ⟨4096, 64, ⟨0, 0, 9, 9⟩⟩
          (fun a => a % 251)).1.GetBounds = ⟨0, 0, 9, 9⟩
    ∧ (ctorCopy 4 (fun _ _ => 8192) ⟨0, 0, 0, 0⟩ ⟨4096, 64, ⟨0, 0, 9, 9⟩⟩
          (fun a => a % 251)).1.GetPitch = 64
    ∧ (∀ x y, Bounds.Contains ⟨0, 0, 9, 9⟩ x y → ∀ k, k < 4 →
        (ctorCopy 4 (fun _ _ => 8192) ⟨0, 0, 0, 0⟩ ⟨4096, 64, ⟨0, 0, 9, 9⟩⟩
            (fun a => a % 251)).2
          ((ctorCopy 4 (fun _ _ => 8192) ⟨0, 0, 0, 0⟩ ⟨4096, 64, ⟨0, 0, 9, 9⟩⟩
            (fun a => a % 251)).1.GetPtr 4 x y + k)
        = (ctorCopy 4 (fun _ _ => 8192) ⟨0, 0, 0, 0⟩ ⟨4096, 64, ⟨0, 0, 9, 9⟩⟩
            (fun a => a % 251)).2 (GetPtr 4 ⟨4096, 64, ⟨0, 0, 9, 9⟩⟩ x y + k)) :=
  ⟨by decide,
    (deep_copy_law 4 (fun _ _ => 8192) ⟨0, 0, 0, 0⟩ ⟨0, 0, ⟨0, 0, 0, 0⟩⟩
      ⟨4096, 64, ⟨0, 0, 9, 9⟩⟩ (fun a => a % 251) (by decide) (by decide) (by decide)
      (Or.inr (by decide))).2.1,
    (deep_copy_law 4 (fun _ _ => 8192) ⟨0, 0, 0, 0⟩ ⟨0, 0, ⟨0, 0, 0, 0⟩⟩
      ⟨4096, 64, ⟨0, 0, 9, 9⟩⟩ (fun a => a % 251) (by decide) (by decide) (by decide)
      (Or.inr (by decide))).2.2.1,
    (deep_copy_law 4 (fun _ _ => 8192) ⟨0, 0, 0, 0⟩ ⟨0, 0, ⟨0, 0, 0, 0⟩⟩
      ⟨4096, 64, ⟨0, 0, 9, 9⟩⟩ (fun a => a % 251) (by decide) (by decide) (by decide)
      (Or.inr (by decide))).2.2.2.1⟩

/-- Witness of claim C6: two distinct objects, at the addresses 1 and 2. -/
theorem move_law_witness :
    ((1 : Nat) ≠ 2)
    ∧ moveAssign ⟨0, 0, 0, 0⟩ threeImages 1 2 1 = threeImages 2
    ∧ (moveAssign ⟨0, 0, 0, 0⟩ threeImages 1 2 2).IsAllocated = false
    ∧ (moveAssign ⟨0, 0, 0, 0⟩ threeImages 1 2 2).GetPitch = 0
    ∧ (moveAssign ⟨0, 0, 0, 0⟩ threeImages 1 2 2).GetBounds = ⟨0, 0, 0, 0⟩ :=
  ⟨by decide,
    ((move_law ⟨0, 0, 0, 0⟩ (threeImages 2) threeImages 1 2).2.1 (by decide)).1,
    ((move_law ⟨0, 0, 0, 0⟩ (threeImages 2) threeImages 1 2).2.1 (by decide)).2.1,
    ((move_law ⟨0, 0, 0, 0⟩ (threeImages 2) threeImages 1 2).2.1 (by decide)).2.2.1,
    ((move_law ⟨0, 0, 0, 0⟩ (threeImages 2) threeImages 1 2).2.1 (by decide)).2.2.2.1⟩

/-! ## Host-memory round trip -/

/-- For a buffer of a single row the round trip reproduces the row: the first pass
of `MemCpyOut` reads from the buffer. -/
theorem roundTrip_single_row (sz : Nat) (b : ImageBase) (H H2 S : Nat) (m : Mem)
    (h1 : rowCount b.region_.y1 b.region_.y2 = 1) (j : Nat)
    (hj : j < mulSizeT (toSizeT b.region_.GetWidth) sz) :
    roundTrip sz b H H2 S m (H2 + j) = m (H + j) := by
  unfold roundTrip MemCpyOut MemCpyIn
  rw [h1]
  show memcpy (memcpy m _ H _) H2 _ _ (H2 + j) = m (H + j)
  rw [memcpy_inside _ _ _ _ _ (by omega) (by omega),
    memcpy_inside _ _ _ _ _ (by omega) (by omega)]
  congr 1; omega

/-- Claim C1, at a buffer of two rows. The buffer `twoRowImage` is valid and the
stride 128 is at least the row size 4; after `MemCpyIn` from the host array at 8192
and `MemCpyOut` to the zero-filled host array at 16384, the four bytes of the
first row are reproduced, but the four bytes of the second row are still 0 while
the source bytes are 5, 6, 7 and 1: the second pass of `MemCpyOut` reads at
`GetNextRow(dest_ptr)`, inside the destination array. -/
theorem roundTrip_second_row_not_restored :
    twoRowImage.Valid 4
    ∧ (roundTrip 4 twoRowImage 8192 16384 128 twoRowHeap (16384 + 0) = twoRowHeap (8192 + 0)
      ∧ roundTrip 4 twoRowImage 8192 16384 128 twoRowHeap (16384 + 1) = twoRowHeap (8192 + 1)
      ∧ roundTrip 4 twoRowImage 8192 16384 128 twoRowHeap (16384 + 2) = twoRowHeap (8192 + 2)
      ∧ roundTrip 4 twoRowImage 8192 16384 128 twoRowHeap (16384 + 3) = twoRowHeap (8192 + 3))
    ∧ (roundTrip 4 twoRowImage 8192 16384 128 twoRowHeap (16384 + 1 * 128 + 0) = 0
      ∧ roundTrip 4 twoRowImage 8192 16384 128 twoRowHeap (16384 + 1 * 128 + 1) = 0
      ∧ roundTrip 4 twoRowImage 8192 16384 128 twoRowHeap (16384 + 1 * 128 + 2) = 0
      ∧ roundTrip 4 twoRowImage 8192 16384 128 twoRowHeap (16384 + 1 * 128 + 3) = 0)
    ∧ (twoRowHeap (8192 + 1 * 128 + 0) = 5 ∧ twoRowHeap (8192 + 1 * 128 + 1) = 6
      ∧ twoRowHeap (8192 + 1 * 128 + 2) = 7 ∧ twoRowHeap (8192 + 1 * 128 + 3) = 1)
    ∧ twoRowHeap (16384 + 64) = 0 := by
  decide

/-! ## ImageLayer -/

/-- Claim C4, at the empty layer. `GetChannel(0)` and `operator[](0)` on a layer
without channels do not throw: `channels_.size() - 1` wraps to `2 ^ 64 - 1`, no
converted index exceeds it, and the empty vector is indexed; no index at all
makes the empty layer throw. -/
theorem GetChannel_empty_layer_no_throw :
    ImageLayer.GetChannel { channels_ := [] } 0 = Outcome.undefined
    ∧ ImageLayer.index { channels_ := [] } 0 = Outcome.undefined
    ∧ ∀ channel : Int, ImageLayer.GetChannel { channels_ := [] } channel
        = Outcome.undefined := by
  refine ⟨by decide, by decide, ?_⟩
  intro channel
  have h : ¬ (ImageLayer.toUnsigned channel
      > (ImageLayer.size { channels_ := [] } + (2 ^ 64 - 1)) % 2 ^ 64) := by
    unfold ImageLayer.toUnsigned ImageLayer.size
    simp only [List.length_nil]
    omega
  unfold ImageLayer.GetChannel
  rw [if_neg h]
  rfl

/-- The loop that fills the pixel view: started at the counter `i` with the first
`i` pointers set, it ends with the pointer of every channel set, provided the
counter cannot wrap and the fuel covers the channels left. -/
theorem PixelLoop_spec (sz : Nat) (st : ImageStore) (layer : ImageLayer) (x y : Int)
    (hk : layer.channels_.length < 2 ^ 32) :
    ∀ (fuel i : Nat) (px : Pixel), i ≤ layer.channels_.length →
      layer.channels_.length - i < fuel →
      px.ptrs.length = layer.channels_.length →
      (∀ j, j < i →
        px.ptrs[j]? = (layer.channels_.map (fun h => (st h).GetPtr sz x y))[j]?) →
      ImageLayer.PixelLoop sz st layer x y fuel i px
        = some { ptrs := layer.channels_.map (fun h => (st h).GetPtr sz x y) } := by
  intro fuel
  induction fuel with
  | zero => intro i px _ hf; omega
  | succ fuel ih =>
    intro i px hi hf hlen hpre
    have hsize : layer.size = layer.channels_.length := by
      unfold ImageLayer.size; omega
    unfold ImageLayer.PixelLoop
    by_cases hlt : i < layer.channels_.length
    · rw [dif_pos (hsize ▸ hlt)]
      have hnext : (i + 1) % 2 ^ 32 = i + 1 := Nat.mod_eq_of_lt (by omega)
      rw [hnext]
      apply ih (i + 1) _ (by omega) (by omega)
      · simp [Pixel.SetPtr, hlen]
      · intro j hj
        rcases Nat.lt_or_eq_of_le (Nat.le_of_lt_succ hj) with h1 | h1
        · have hne : i ≠ j := by omega
          simp only [Pixel.SetPtr, List.getElem?_set_ne hne]
          exact hpre j h1
        · subst h1
          simp [Pixel.SetPtr, hlen, hlt]
    · rw [dif_neg (hsize ▸ hlt)]
      congr 1
      cases px with
      | mk ptrs =>
        congr 1
        apply List.ext_getElem?
        intro j
        by_cases hj : j < i
        · exact hpre j hj
        · have h1 : ptrs.length ≤ j := by simp only at hlen; omega
          have h2 : (layer.channels_.map (fun h => (st h).GetPtr sz x y)).length ≤ j := by
            simp; omega
          rw [List.getElem?_eq_none h1, List.getElem?_eq_none h2]

/-- Claim C10. Layer pixel view. For a layer of `k` channels, `k` within the range
of the `unsigned int` counter, and fuel for more than `k` passes, `GetPixel(x, y)`
and `GetWritePixel(x, y)` return a view of exactly `k` pointers whose `i`-th
pointer is `GetPtr(x, y)` of the `i`-th channel in append order. -/
theorem GetPixel_view (sz : Nat) (st : ImageStore) (layer : ImageLayer) (x y : Int)
    (fuel : Nat) (hk : layer.channels_.length < 2 ^ 32)
    (hfuel : layer.channels_.length < fuel) :
    (∃ px, ImageLayer.GetPixel sz st layer x y fuel = some px
      ∧ ImageLayer.GetWritePixel sz st layer x y fuel = some px
      ∧ px.ptrs.length = layer.channels_.length
      ∧ ∀ i (hi : i < layer.channels_.length),
          px.ptrs[i]? = some ((st layer.channels_[i]).GetPtr sz x y))
    ∧ ImageLayer.GetPixel sz st layer x y fuel
        = some { ptrs := layer.channels_.map (fun h => (st h).GetPtr sz x y) } := by
  have hsize : layer.size % 2 ^ 32 = layer.channels_.length := by
    unfold ImageLayer.size; omega
  have hrun : ImageLayer.PixelLoop sz st layer x y fuel 0 (Pixel.ctor (layer.size % 2 ^ 32))
      = some { ptrs := layer.channels_.map (fun h => (st h).GetPtr sz x y) } := by
    apply PixelLoop_spec sz st layer x y hk fuel 0 _ (Nat.zero_le _) (by omega)
    · rw [hsize]; simp [Pixel.ctor]
    · intro j hj; omega
  refine ⟨⟨_, hrun, hrun, by simp, ?_⟩, hrun⟩
  intro i hi
  simp [hi]

/-- Witness of claim C10: a layer of three channels over `[0,0]-[9,9]`. -/
theorem GetPixel_view_witness :
    (([1, 2, 3] : List Nat).length < 2 ^ 32 ∧ ([1, 2, 3] : List Nat).length < 4)
    ∧ ImageLayer.GetPixel 4 threeImages { channels_ := [1, 2, 3] } 2 3 4
        = some { ptrs := [GetPtr 4 (threeImages 1) 2 3, GetPtr 4 (threeImages 2) 2 3,
            GetPtr 4 (threeImages 3) 2 3] } :=
  ⟨by decide,
    (GetPixel_view 4 threeImages { channels_ := [1, 2, 3] } 2 3 4 (by decide)
      (by decide)).2⟩

/-! ## Appending channels -/

theorem foldl_append_channels (sz : Nat) (aligned_alloc : Nat → Nat → Nat) (dflt : Bounds)
    (ops : List Append) :
    ∀ s : ImageStore × ImageLayer,
      (ops.foldl (ImageLayer.append sz aligned_alloc dflt) s).2.channels_
        = s.2.channels_ ++ ops.map Append.handle := by
  induction ops with
  | nil => intro s; simp
  | cons op ops ih =>
    intro s
    rw [List.foldl_cons, ih]
    cases op <;>
      simp [ImageLayer.append, ImageLayer.AddImageRegion, ImageLayer.AddImage,
        ImageLayer.MoveImage, Append.handle]

/-- The channels of a layer built by appending calls are the appended handles, in
the order of the calls. -/
theorem build_channels (sz : Nat) (aligned_alloc : Nat → Nat → Nat) (dflt : Bounds)
    (st : ImageStore) (ops : List Append) :
    (ImageLayer.build sz aligned_alloc dflt st ops).2.channels_
      = ops.map Append.handle := by
  unfold ImageLayer.build
  rw [foldl_append_channels]
  simp [ImageLayer.ctor]

/-- Claim C11, at a layer built by three appending calls. The vector of a fresh
layer has size 0 and the vector after `k` appending calls has size `k` (here 3,
in general `k` as a `size_t`), but `ChannelCount`, declared `void`, returns the same empty value for both, as
it does for every layer: the size is computed and not reported. -/
theorem ChannelCount_reports_no_count :
    ImageLayer.size ImageLayer.ctor = 0
    ∧ ImageLayer.size (ImageLayer.build 4 (fun _ _ => 4096) ⟨0, 0, 0, 0⟩ threeImages
        [Append.add 1, Append.move 2, Append.addRegion 7 ⟨0, 0, 9, 9⟩]).2 = 3
    ∧ ImageLayer.ChannelCount (ImageLayer.build 4 (fun _ _ => 4096) ⟨0, 0, 0, 0⟩ threeImages
        [Append.add 1, Append.move 2, Append.addRegion 7 ⟨0, 0, 9, 9⟩]).2
        = ImageLayer.ChannelCount ImageLayer.ctor
    ∧ (∀ (sz : Nat) (aligned_alloc : Nat → Nat → Nat) (dflt : Bounds) (st : ImageStore)
        (ops : List Append),
        ImageLayer.size (ImageLayer.build sz aligned_alloc dflt st ops).2
          = ops.length % 2 ^ 64)
    ∧ ∀ layer : ImageLayer, ImageLayer.ChannelCount layer = () := by
  refine ⟨by decide, by decide, rfl, ?_, fun _ => rfl⟩
  intro sz aligned_alloc dflt st ops
  unfold ImageLayer.size
  rw [build_channels, List.length_map]

/-- Claim C16. Channel lookup on a non-empty layer. For a layer built by `k`
appending calls, `1 ≤ k < 2 ^ 31`, and every `int` index `i`: `GetChannel(i)`
throws the runtime error exactly when `i < 0` or `i ≥ k`, and for `0 ≤ i < k` it
returns the handle appended by the call number `i + 1`. -/
theorem GetChannel_nonempty_layer (sz : Nat) (aligned_alloc : Nat → Nat → Nat)
    (dflt : Bounds) (st : ImageStore) (ops : List Append) (i : Int)
    (hk1 : 1 ≤ ops.length) (hk : ops.length < 2 ^ 31)
    (hi1 : -(2 : Int) ^ 31 ≤ i) (hi2 : i < (2 : Int) ^ 31) :
    ((ImageLayer.build sz aligned_alloc dflt st ops).2.GetChannel i
        = Outcome.runtime_error "afx::Image - channel does not exist"
      ↔ (i < 0 ∨ (ops.length : Int) ≤ i))
    ∧ (∀ j (hj : j < ops.length), i = (j : Int) →
        (ImageLayer.build sz aligned_alloc dflt st ops).2.GetChannel i
          = Outcome.value (ops[j]).handle) := by
  have hch := build_channels sz aligned_alloc dflt st ops
  have hsize : (ImageLayer.build sz aligned_alloc dflt st ops).2.size = ops.length := by
    unfold ImageLayer.size
    rw [hch, List.length_map]
    exact Nat.mod_eq_of_lt (by omega)
  have hin : ∀ j (hj : j < ops.length), i = (j : Int) →
      (ImageLayer.build sz aligned_alloc dflt st ops).2.GetChannel i
        = Outcome.value (ops[j]).handle := by
    intro j hj hij
    have hno : ¬ (ImageLayer.toUnsigned i > (ops.length + (2 ^ 64 - 1)) % 2 ^ 64) := by
      unfold ImageLayer.toUnsigned; omega
    have hidx : toSizeT i = j := by unfold toSizeT; omega
    unfold ImageLayer.GetChannel
    rw [hsize, if_neg hno, hch, hidx]
    simp [hj]
  refine ⟨⟨?_, ?_⟩, hin⟩
  · intro hthrow
    by_contra hcon
    have h0 : 0 ≤ i := by omega
    have hlt : i.toNat < ops.length := by omega
    rw [hin i.toNat hlt (by omega)] at hthrow
    exact Outcome.noConfusion hthrow
  · intro hout
    have hyes : ImageLayer.toUnsigned i > (ops.length + (2 ^ 64 - 1)) % 2 ^ 64 := by
      unfold ImageLayer.toUnsigned; omega
    unfold ImageLayer.GetChannel
    rw [hsize, if_pos hyes]

/-- Witness of claim C16: three appending calls and the indexes 1, 3 and -1. -/
theorem GetChannel_nonempty_layer_witness :
    (1 ≤ [Append.add 1, Append.move 2, Append.addRegion 7 ⟨0, 0, 9, 9⟩].length
      ∧ [Append.add 1, Append.move 2, Append.addRegion 7 ⟨0, 0, 9, 9⟩].length < 2 ^ 31)
    ∧ (ImageLayer.build 4 (fun _ _ => 4096) ⟨0, 0, 0, 0⟩ threeImages
        [Append.add 1, Append.move 2, Append.addRegion 7 ⟨0, 0, 9, 9⟩]).2.GetChannel 1
        = Outcome.value 2
    ∧ (ImageLayer.build 4 (fun _ _ => 4096) ⟨0, 0, 0, 0⟩ threeImages
        [Append.add 1, Append.move 2, Append.addRegion 7 ⟨0, 0, 9, 9⟩]).2.GetChannel 3
        = Outcome.runtime_error "afx::Image - channel does not exist"
    ∧ (ImageLayer.build 4 (fun _ _ => 4096) ⟨0, 0, 0, 0⟩ threeImages
        [Append.add 1, Append.move 2, Append.addRegion 7 ⟨0, 0, 9, 9⟩]).2.GetChannel (-1)
        = Outcome.runtime_error "afx::Image - channel does not exist" :=
  ⟨by decide,
    (GetChannel_nonempty_layer 4 (fun _ _ => 4096) ⟨0, 0, 0, 0⟩ threeImages
      [Append.add 1, Append.move 2, Append.addRegion 7 ⟨0, 0, 9, 9⟩] 1
      (by decide) (by decide) (by decide) (by decide)).2 1 (by decide) rfl,
    ((GetChannel_nonempty_layer 4 (fun _ _ => 4096) ⟨0, 0, 0, 0⟩ threeImages
      [Append.add 1, Append.move 2, Append.addRegion 7 ⟨0, 0, 9, 9⟩] 3
      (by decide) (by decide) (by decide) (by decide)).1).2 (Or.inr (by decide)),
    ((GetChannel_nonempty_layer 4 (fun _ _ => 4096) ⟨0, 0, 0, 0⟩ threeImages
      [Append.add 1, Append.move 2, Append.addRegion 7 ⟨0, 0, 9, 9⟩] (-1)
      (by decide) (by decide) (by decide) (by decide)).1).2 (Or.inl (by decide))⟩

/-! ## Buffer states -/

/-- The three fields that `Allocate` leaves, whatever the buffer held before. -/
theorem Allocate_def (sz : Nat) (aligned_alloc : Nat → Nat → Nat) (b : ImageBase)
    (region : Bounds) :
    b.Allocate sz aligned_alloc region
      = { ptr_ := aligned_alloc 64
            (mulSizeT (pitchFor sz region) (toSizeT region.GetHeight)),
          pitch_ := pitchFor sz region, region_ := region } := rfl

theorem pitchFor_mod (sz : Nat) (region : Bounds) : pitchFor sz region % 64 = 0 := by
  unfold pitchFor
  generalize mulSizeT (toSizeT region.GetWidth) sz = n
  unfold addSizeT mulSizeT
  omega

/-- For `width` and `height` from 1 to `2 ^ 31`, `Allocate(width, height)` is
`Allocate` on the region `(0, 0, width - 1, height - 1)`. -/
theorem AllocateWH_eq (sz : Nat) (aligned_alloc : Nat → Nat → Nat) (b : ImageBase)
    (w h : Nat) (hw : 0 < w) (hw31 : w ≤ 2 ^ 31) (hh : 0 < h) (hh31 : h ≤ 2 ^ 31) :
    b.AllocateWH sz aligned_alloc w h
      = b.Allocate sz aligned_alloc ⟨0, 0, (w : Int) - 1, (h : Int) - 1⟩ := by
  unfold AllocateWH
  rw [whRegion_eq w h hw hw31 hh hh31]

theorem Copy_fst (sz : Nat) (aligned_alloc : Nat → Nat → Nat) (b other : ImageBase)
    (m : Mem) :
    (Copy sz aligned_alloc b other m).1
      = { ptr_ := aligned_alloc 64
            (mulSizeT (pitchFor sz other.region_) (toSizeT other.region_.GetHeight)),
          pitch_ := pitchFor sz other.region_, region_ := other.region_ } := rfl

theorem Deallocate_fields (b : ImageBase) :
    b.Deallocate.ptr_ = 0 ∧ b.Deallocate.pitch_ = b.pitch_
    ∧ b.Deallocate.region_ = b.region_ := by
  unfold Deallocate
  by_cases h : b.ptr_ ≠ 0
  · rw [if_pos h]; exact ⟨rfl, rfl, rfl⟩
  · rw [if_neg h]; exact ⟨not_not.mp h, rfl, rfl⟩

theorem IsAllocated_iff (b : ImageBase) : b.IsAllocated = true ↔ b.ptr_ ≠ 0 := by
  unfold IsAllocated
  by_cases h : b.ptr_ ≠ 0
  · simp [h]
  · simp [h]

/-- The object assigned to by a move assignment: the old value of `other`, or its
own value when the two addresses coincide. -/
theorem moveAssign_self (dflt : Bounds) (st : ImageStore) (self other : Nat) :
    moveAssign dflt st self other self = st other := by
  by_cases h : self = other
  · subst h; simp [moveAssign]
  · have h2 : other ≠ self := fun e => h e.symm
    simp [moveAssign, ImageStore.set, h, h2]

/-- The source of a move assignment between two distinct objects is left empty. -/
theorem moveAssign_other (dflt : Bounds) (st : ImageStore) (self other : Nat)
    (h : self ≠ other) :
    moveAssign dflt st self other other = { ptr_ := 0, pitch_ := 0, region_ := dflt } := by
  simp [moveAssign, ImageStore.set, h]

/-- Claim C13. Pitch invariant. In every state that the public operations reach,
the moved-from source included, `GetPitch()` is a multiple of 64, with the
`size_t` arithmetic of `Allocate` taken modulo `2 ^ 64`. -/
theorem pitch_multiple_of_64 (sz : Nat) (dflt : Bounds) (b : ImageBase)
    (h : Reachable sz dflt b) : b.GetPitch % 64 = 0 := by
  unfold GetPitch
  induction h with
  | ctor => rfl
  | ctorRegion alloc region => exact pitchFor_mod sz region
  | ctorWH alloc w h _ _ => exact pitchFor_mod sz _
  | ctorCopy alloc other m _ _ => exact pitchFor_mod sz other.region_
  | ctorMove other _ ih => exact ih
  | movedFrom other _ _ => rfl
  | assignCopy alloc b other m _ _ _ _ => exact pitchFor_mod sz other.region_
  | assignMove st self other _ _ _ ih2 => rw [moveAssign_self]; exact ih2
  | assignMoveFrom st self other _ _ _ ih2 =>
    by_cases hne : self = other
    · subst hne; rw [moveAssign_self]; exact ih2
    · rw [moveAssign_other dflt st self other hne]; rfl
  | allocate alloc b region _ _ => exact pitchFor_mod sz region
  | allocateWH alloc b w h _ _ _ _ => exact pitchFor_mod sz _
  | copy alloc b other m _ _ _ _ => exact pitchFor_mod sz other.region_
  | deallocate b _ ih => rw [(Deallocate_fields b).2.1]; exact ih

/-- Witness of claim C13: the source of a move from a buffer over `[0,0]-[9,9]`,
and that buffer after `Deallocate`. -/
theorem pitch_multiple_of_64_witness :
    (Reachable 4 ⟨0, 0, 0, 0⟩
        (ctorMove ⟨0, 0, 0, 0⟩ (ctorRegion 4 (fun _ _ => 4096) ⟨0, 0, 0, 0⟩ ⟨0, 0, 9, 9⟩)).2
      ∧ Reachable 4 ⟨0, 0, 0, 0⟩
        (ctorRegion 4 (fun _ _ => 4096) ⟨0, 0, 0, 0⟩ ⟨0, 0, 9, 9⟩).Deallocate)
    ∧ (ctorMove ⟨0, 0, 0, 0⟩
        (ctorRegion 4 (fun _ _ => 4096) ⟨0, 0, 0, 0⟩ ⟨0, 0, 9, 9⟩)).2.GetPitch % 64 = 0
    ∧ (ctorRegion 4 (fun _ _ => 4096) ⟨0, 0, 0, 0⟩ ⟨0, 0, 9, 9⟩).Deallocate.GetPitch % 64
        = 0
    ∧ (ctorRegion 4 (fun _ _ => 4096) ⟨0, 0, 0, 0⟩ ⟨0, 0, 9, 9⟩).Deallocate.GetPitch = 64 :=
  ⟨⟨Reachable.movedFrom _ (Reachable.ctorRegion _ _),
      Reachable.deallocate _ (Reachable.ctorRegion _ _)⟩,
    pitch_multiple_of_64 4 ⟨0, 0, 0, 0⟩ _
      (Reachable.movedFrom _ (Reachable.ctorRegion _ _)),
    pitch_multiple_of_64 4 ⟨0, 0, 0, 0⟩ _
      (Reachable.deallocate _ (Reachable.ctorRegion _ _)),
    by decide⟩

/-- Whatever the default region is, there is a region in use such that the buffer
constructed over it and then deallocated, a reachable state, is not allocated
while its region is still the one in use: `Deallocate` resets the pointer and
keeps the region. -/
theorem deallocate_keeps_region_any_default :
    ∀ dflt : Bounds, ∃ region : Bounds,
      Reachable 4 dflt (ctorRegion 4 (fun _ _ => 4096) dflt region).Deallocate
      ∧ (ctorRegion 4 (fun _ _ => 4096) dflt region).Deallocate.IsAllocated = false
      ∧ RegionInUse dflt (ctorRegion 4 (fun _ _ => 4096) dflt region).Deallocate.region_
      ∧ ¬ ((ctorRegion 4 (fun _ _ => 4096) dflt region).Deallocate.IsAllocated = true
            ↔ RegionInUse dflt
                (ctorRegion 4 (fun _ _ => 4096) dflt region).Deallocate.region_) := by
  intro dflt
  have key : ∀ region : Bounds, RegionInUse dflt region →
      Reachable 4 dflt (ctorRegion 4 (fun _ _ => 4096) dflt region).Deallocate
      ∧ (ctorRegion 4 (fun _ _ => 4096) dflt region).Deallocate.IsAllocated = false
      ∧ RegionInUse dflt (ctorRegion 4 (fun _ _ => 4096) dflt region).Deallocate.region_
      ∧ ¬ ((ctorRegion 4 (fun _ _ => 4096) dflt region).Deallocate.IsAllocated = true
            ↔ RegionInUse dflt
                (ctorRegion 4 (fun _ _ => 4096) dflt region).Deallocate.region_) := by
    intro region hr
    have hreg : (ctorRegion 4 (fun _ _ => 4096) dflt region).Deallocate.region_ = region :=
      (Deallocate_fields _).2.2
    have hna : (ctorRegion 4 (fun _ _ => 4096) dflt region).Deallocate.IsAllocated = false := by
      have h0 := (Deallocate_fields (ctorRegion 4 (fun _ _ => 4096) dflt region)).1
      unfold IsAllocated
      rw [h0]; rfl
    refine ⟨Reachable.deallocate _ (Reachable.ctorRegion _ _), hna, hreg ▸ hr, ?_⟩
    rw [hna, hreg]
    intro hiff
    exact Bool.false_ne_true (hiff.2 hr)
  by_cases hd : dflt = ⟨0, 0, 9, 9⟩
  · refine ⟨⟨0, 0, 4, 4⟩, key _ ⟨by decide, by decide, ?_⟩⟩
    rw [hd]; decide
  · exact ⟨⟨0, 0, 9, 9⟩, key _ ⟨by decide, by decide, fun e => hd e.symm⟩⟩

/-- Claim C12 fails on the code. With `[0,0]-[0,0]` for the default region, the
buffer constructed over `[0,0]-[9,9]` and then deallocated is a reachable state
that is not allocated, while its region still has 10 columns and 10 rows and is
not the default region. -/
theorem deallocate_keeps_region_in_use :
    Reachable 4 ⟨0, 0, 0, 0⟩
      (ctorRegion 4 (fun _ _ => 4096) ⟨0, 0, 0, 0⟩ ⟨0, 0, 9, 9⟩).Deallocate
    ∧ (ctorRegion 4 (fun _ _ => 4096) ⟨0, 0, 0, 0⟩ ⟨0, 0, 9, 9⟩).IsAllocated = true
    ∧ (ctorRegion 4 (fun _ _ => 4096) ⟨0, 0, 0, 0⟩ ⟨0, 0, 9, 9⟩).Deallocate.IsAllocated
        = false
    ∧ (ctorRegion 4 (fun _ _ => 4096) ⟨0, 0, 0, 0⟩ ⟨0, 0, 9, 9⟩).Deallocate.GetBounds
        = ⟨0, 0, 9, 9⟩
    ∧ RegionInUse ⟨0, 0, 0, 0⟩
        (ctorRegion 4 (fun _ _ => 4096) ⟨0, 0, 0, 0⟩ ⟨0, 0, 9, 9⟩).Deallocate.region_
    ∧ ¬ ((ctorRegion 4 (fun _ _ => 4096) ⟨0, 0, 0, 0⟩ ⟨0, 0, 9, 9⟩).Deallocate.IsAllocated
            = true
          ↔ RegionInUse ⟨0, 0, 0, 0⟩
              (ctorRegion 4 (fun _ _ => 4096) ⟨0, 0, 0, 0⟩
                ⟨0, 0, 9, 9⟩).Deallocate.region_) :=
  ⟨Reachable.deallocate _ (Reachable.ctorRegion _ _), by decide, by decide, by decide,
    by decide, by decide⟩

/-- Claim C12 as amended. In every state reached by the public operations when
`Deallocate` is not called directly, the allocator never answers null, every
region handed to a constructor or to `Allocate` has at least one column and one
row and is not the default region, and copies are taken from allocated buffers
only, the buffer is allocated exactly when its region has at least one column
and one row and is not the default region. -/
theorem allocated_iff_region_in_use (sz : Nat) (dflt : Bounds) (b : ImageBase)
    (h : ReachableGuarded sz dflt b) :
    b.IsAllocated = true ↔ RegionInUse dflt b.region_ := by
  have hempty : ∀ pitch : Nat,
      (IsAllocated { ptr_ := 0, pitch_ := pitch, region_ := dflt } = true
        ↔ RegionInUse dflt dflt) := by
    intro pitch
    constructor
    · intro hc; exact absurd hc (by simp [IsAllocated])
    · intro hc; exact absurd rfl hc.2.2
  have hfresh : ∀ (alloc : Nat → Nat → Nat) (n pitch : Nat) (region : Bounds),
      (∀ a n, alloc a n ≠ 0) → RegionInUse dflt region →
      (IsAllocated { ptr_ := alloc 64 n, pitch_ := pitch, region_ := region } = true
        ↔ RegionInUse dflt region) := by
    intro alloc n pitch region hal hr
    rw [IsAllocated_iff]
    exact ⟨fun _ => hr, fun _ => hal 64 n⟩
  induction h with
  | ctor => exact hempty 0
  | ctorRegion alloc region hal hr => exact hfresh alloc _ _ region hal hr
  | ctorWH alloc w h hal hw hw32 hh hh32 hr =>
    exact hfresh alloc _ _ _ hal hr
  | ctorCopy alloc other m hal _ hoa ih =>
    exact hfresh alloc _ _ other.region_ hal (ih.1 hoa)
  | ctorMove other _ ih => exact ih
  | movedFrom other _ _ => exact hempty 0
  | assignCopy alloc b other m hal _ _ hoa _ ih2 =>
    exact hfresh alloc _ _ other.region_ hal (ih2.1 hoa)
  | assignMove st self other _ _ _ ih2 => rw [moveAssign_self]; exact ih2
  | assignMoveFrom st self other _ _ _ ih2 =>
    by_cases hne : self = other
    · subst hne; rw [moveAssign_self]; exact ih2
    · rw [moveAssign_other dflt st self other hne]; exact hempty 0
  | allocate alloc b region hal hr _ _ => exact hfresh alloc _ _ region hal hr
  | allocateWH alloc b w h hal hw hw32 hh hh32 hr _ _ =>
    exact hfresh alloc _ _ _ hal hr
  | copy alloc b other m hal _ _ hoa _ ih2 =>
    exact hfresh alloc _ _ other.region_ hal (ih2.1 hoa)

/-- Witness of claim C12 as amended: a buffer constructed over `[0,0]-[9,9]`, and
the source of a move from it. -/
theorem allocated_iff_region_in_use_witness :
    (ReachableGuarded 4 ⟨0, 0, 0, 0⟩
        (ctorRegion 4 (fun _ _ => 4096) ⟨0, 0, 0, 0⟩ ⟨0, 0, 9, 9⟩)
      ∧ ReachableGuarded 4 ⟨0, 0, 0, 0⟩
        (ctorMove ⟨0, 0, 0, 0⟩
          (ctorRegion 4 (fun _ _ => 4096) ⟨0, 0, 0, 0⟩ ⟨0, 0, 9, 9⟩)).2)
    ∧ ((ctorRegion 4 (fun _ _ => 4096) ⟨0, 0, 0, 0⟩ ⟨0, 0, 9, 9⟩).IsAllocated = true
        ↔ RegionInUse ⟨0, 0, 0, 0⟩
            (ctorRegion 4 (fun _ _ => 4096) ⟨0, 0, 0, 0⟩ ⟨0, 0, 9, 9⟩).region_)
    ∧ ((ctorMove ⟨0, 0, 0, 0⟩
          (ctorRegion 4 (fun _ _ => 4096) ⟨0, 0, 0, 0⟩ ⟨0, 0, 9, 9⟩)).2.IsAllocated = true
        ↔ RegionInUse ⟨0, 0, 0, 0⟩
            (ctorMove ⟨0, 0, 0, 0⟩
              (ctorRegion 4 (fun _ _ => 4096) ⟨0, 0, 0, 0⟩ ⟨0, 0, 9, 9⟩)).2.region_)
    ∧ (ctorRegion 4 (fun _ _ => 4096) ⟨0, 0, 0, 0⟩ ⟨0, 0, 9, 9⟩).IsAllocated = true :=
  ⟨⟨ReachableGuarded.ctorRegion _ _ (fun _ _ => by decide) (by decide),
      ReachableGuarded.movedFrom _
        (ReachableGuarded.ctorRegion _ _ (fun _ _ => by decide) (by decide))⟩,
    allocated_iff_region_in_use 4 ⟨0, 0, 0, 0⟩ _
      (ReachableGuarded.ctorRegion _ _ (fun _ _ => by decide) (by decide)),
    allocated_iff_region_in_use 4 ⟨0, 0, 0, 0⟩ _
      (ReachableGuarded.movedFrom _
        (ReachableGuarded.ctorRegion _ _ (fun _ _ => by decide) (by decide))),
    by decide⟩

/-! ## Allocation failure -/

/-- Claim C17 fails on the code. The allocator answers null, and after
`Allocate([0,0]-[9,9])` on an empty buffer of 4-byte elements (default region
`[0,0]-[0,0]`) the buffer is not allocated, but its pitch is 64 and its region is
`[0,0]-[9,9]`, not the pitch 0 and the default region of the empty state. -/
theorem Allocate_failure_keeps_pitch_and_region :
    (fun _ _ => 0 : Nat → Nat → Nat) 64 640 = 0
    ∧ ((ctor ⟨0, 0, 0, 0⟩).Allocate 4 (fun _ _ => 0) ⟨0, 0, 9, 9⟩).ptr_ = 0
    ∧ ((ctor ⟨0, 0, 0, 0⟩).Allocate 4 (fun _ _ => 0) ⟨0, 0, 9, 9⟩).IsAllocated = false
    ∧ ((ctor ⟨0, 0, 0, 0⟩).Allocate 4 (fun _ _ => 0) ⟨0, 0, 9, 9⟩).GetPitch = 64
    ∧ ((ctor ⟨0, 0, 0, 0⟩).Allocate 4 (fun _ _ => 0) ⟨0, 0, 9, 9⟩).GetBounds = ⟨0, 0, 9, 9⟩
    ∧ ¬ ((ctor ⟨0, 0, 0, 0⟩).Allocate 4 (fun _ _ => 0) ⟨0, 0, 9, 9⟩).GetPitch = 0
    ∧ ¬ ((ctor ⟨0, 0, 0, 0⟩).Allocate 4 (fun _ _ => 0) ⟨0, 0, 9, 9⟩).GetBounds
        = ⟨0, 0, 0, 0⟩ := by
  decide

/-- Claim C17 as amended. If the allocator answers null to the request of
`Allocate(region)`, then after `Allocate` the storage pointer is null and
`IsAllocated()` is false, whatever the buffer held before; `GetPitch()` is the
pitch computed for the requested region, a multiple of 64, and `GetBounds()` is
the requested region. -/
theorem Allocate_failure_state (sz : Nat) (aligned_alloc : Nat → Nat → Nat)
    (b : ImageBase) (region : Bounds)
    (hfail : aligned_alloc 64 (mulSizeT (pitchFor sz region) (toSizeT region.GetHeight))
      = 0) :
    (b.Allocate sz aligned_alloc region).ptr_ = 0
    ∧ (b.Allocate sz aligned_alloc region).IsAllocated = false
    ∧ (b.Allocate sz aligned_alloc region).GetPitch = pitchFor sz region
    ∧ (b.Allocate sz aligned_alloc region).GetPitch % 64 = 0
    ∧ (b.Allocate sz aligned_alloc region).GetBounds = region := by
  rw [Allocate_def]
  refine ⟨hfail, ?_, rfl, pitchFor_mod sz region, rfl⟩
  unfold IsAllocated
  simp only [hfail]
  rfl

/-- Witness of claim C17 as amended: a buffer allocated at address 4096 is asked
to allocate `[0,0]-[9,9]` again and the allocator answers null. -/
theorem Allocate_failure_state_witness :
    ((fun _ _ => 0 : Nat → Nat → Nat) 64
        (mulSizeT (pitchFor 4 ⟨0, 0, 9, 9⟩) (toSizeT (Bounds.GetHeight ⟨0, 0, 9, 9⟩))) = 0)
    ∧ (Allocate 4 (fun _ _ => 0) ⟨4096, 64, ⟨0, 0, 3, 3⟩⟩ ⟨0, 0, 9, 9⟩).ptr_ = 0
    ∧ (Allocate 4 (fun _ _ => 0) ⟨4096, 64, ⟨0, 0, 3, 3⟩⟩ ⟨0, 0, 9, 9⟩).IsAllocated = false
    ∧ (Allocate 4 (fun _ _ => 0) ⟨4096, 64, ⟨0, 0, 3, 3⟩⟩ ⟨0, 0, 9, 9⟩).GetPitch
        = pitchFor 4 ⟨0, 0, 9, 9⟩
    ∧ (Allocate 4 (fun _ _ => 0) ⟨4096, 64, ⟨0, 0, 3, 3⟩⟩ ⟨0, 0, 9, 9⟩).GetPitch % 64 = 0
    ∧ (Allocate 4 (fun _ _ => 0) ⟨4096, 64, ⟨0, 0, 3, 3⟩⟩ ⟨0, 0, 9, 9⟩).GetBounds
        = ⟨0, 0, 9, 9⟩ :=
  ⟨rfl, Allocate_failure_state 4 (fun _ _ => 0) ⟨4096, 64, ⟨0, 0, 3, 3⟩⟩ ⟨0, 0, 9, 9⟩ rfl⟩

/-! ## Allocator requests -/

/-- Claim C20, at the `_WIN32` branch. In the branch without `_WIN32` every call
passes the alignment 64 and the size `pitch_ * height`, a multiple of 64, to
`aligned_alloc(alignment, size)`. In the `_WIN32` branch the same two arguments
go to `_aligned_malloc(size, alignment)`: for `[0,0]-[9,9]` and 4-byte elements
the allocator receives the size 64 and the alignment 640. -/
theorem Allocate_request_swapped_on_win32 :
    (∀ (sz : Nat) (aligned_alloc : Nat → Nat → Nat) (b : ImageBase) (region : Bounds),
        (b.Allocate sz aligned_alloc region).ptr_
            = aligned_alloc (AllocateRequest sz region).alignment
                (AllocateRequest sz region).size
        ∧ (AllocateRequest sz region).alignment = 64
        ∧ (AllocateRequest sz region).size
            = mulSizeT (b.Allocate sz aligned_alloc region).pitch_
                (toSizeT (b.Allocate sz aligned_alloc region).region_.GetHeight)
        ∧ (AllocateRequest sz region).size % 64 = 0)
    ∧ (∀ (sz : Nat) (_aligned_malloc : Nat → Nat → Nat) (b : ImageBase) (region : Bounds),
        (b.AllocateWin32 sz _aligned_malloc region).ptr_
            = _aligned_malloc (AllocateRequestWin32 sz region).size
                (AllocateRequestWin32 sz region).alignment)
    ∧ AllocateRequest 4 ⟨0, 0, 9, 9⟩ = { alignment := 64, size := 640 }
    ∧ AllocateRequestWin32 4 ⟨0, 0, 9, 9⟩ = { alignment := 640, size := 64 }
    ∧ ((ctor ⟨0, 0, 0, 0⟩).AllocateWin32 4 (fun size _ => size) ⟨0, 0, 9, 9⟩).ptr_ = 64
    ∧ ((ctor ⟨0, 0, 0, 0⟩).AllocateWin32 4 (fun _ alignment => alignment)
          ⟨0, 0, 9, 9⟩).ptr_ = 640 := by
  refine ⟨?_, fun _ _ _ _ => rfl, by decide, by decide, by decide, by decide⟩
  intro sz aligned_alloc b region
  refine ⟨rfl, rfl, rfl, ?_⟩
  show mulSizeT (pitchFor sz region) (toSizeT region.GetHeight) % 64 = 0
  have hp := pitchFor_mod sz region
  unfold mulSizeT
  have hd : 64 ∣ pitchFor sz region * toSizeT region.GetHeight :=
    Dvd.dvd.mul_right (Nat.dvd_of_mod_eq_zero hp) _
  obtain ⟨q, hq⟩ := hd
  rw [hq]
  omega

/-! ## In-bounds addressing -/

/-- Claim C18. For a valid buffer and `(x, y)` in its region, `GetPtr(x, y)` is the
base pointer plus `(y - y1) * pitch + (x - x1) * sizeof(T)`; the element at that
offset ends within the `pitch * height` bytes of the block; and the elements of
two distinct in-region coordinates do not overlap. -/
theorem GetPtr_in_bounds_disjoint (sz : Nat) (b : ImageBase) (hv : b.Valid sz)
    (x y : Int) (hc : b.region_.Contains x y) :
    b.GetPtr sz x y
      = b.ptr_ + ((y - b.region_.y1).toNat * b.pitch_ + (x - b.region_.x1).toNat * sz)
    ∧ (y - b.region_.y1).toNat * b.pitch_ + (x - b.region_.x1).toNat * sz + sz
        ≤ b.pitch_ * b.region_.GetHeight.toNat
    ∧ (y - b.region_.y1).toNat * b.pitch_ + (x - b.region_.x1).toNat * sz
        ≤ b.pitch_ * b.region_.GetHeight.toNat - sz
    ∧ ∀ x0 y0, b.region_.Contains x0 y0 → (x0 ≠ x ∨ y0 ≠ y) →
        (b.GetPtr sz x y + sz ≤ b.GetPtr sz x0 y0
          ∨ b.GetPtr sz x0 y0 + sz ≤ b.GetPtr sz x y) := by
  obtain ⟨g1, g2, g3⟩ := GetPtr_of_contains hv hc
  have hH : b.pitch_ * b.region_.GetHeight.toNat
      = (b.region_.y2 + 1 - b.region_.y1).toNat * b.pitch_ := by
    have e : b.region_.GetHeight = b.region_.y2 + 1 - b.region_.y1 := by
      unfold Bounds.GetHeight; ring
    rw [e, Nat.mul_comm]
  refine ⟨by rw [g1]; omega, by rw [hH]; omega, by rw [hH]; omega, ?_⟩
  intro x0 y0 hc0 hne
  obtain ⟨k1, k2, k3⟩ := GetPtr_of_contains hv hc0
  obtain ⟨c1, c2, c3, c4⟩ := hc
  obtain ⟨d1, d2, d3, d4⟩ := hc0
  rw [g1, k1]
  rcases lt_trichotomy y y0 with hy | hy | hy
  · have := mul_succ_le (y - b.region_.y1).toNat (y0 - b.region_.y1).toNat b.pitch_
      (by omega)
    left; omega
  · subst hy
    rcases lt_trichotomy x x0 with hx | hx | hx
    · have := mul_succ_le (x - b.region_.x1).toNat (x0 - b.region_.x1).toNat sz (by omega)
      left; omega
    · subst hx
      rcases hne with h | h <;> exact absurd rfl h
    · have := mul_succ_le (x0 - b.region_.x1).toNat (x - b.region_.x1).toNat sz (by omega)
      right; omega
  · have := mul_succ_le (y0 - b.region_.y1).toNat (y - b.region_.y1).toNat b.pitch_
      (by omega)
    right; omega

/-- Witness of claim C18: the last pixel of the buffer over `[0,0]-[9,9]` with
4-byte elements at address 4096, against the first pixel of the same row. -/
theorem GetPtr_in_bounds_disjoint_witness :
    (Valid 4 ⟨4096, 64, ⟨0, 0, 9, 9⟩⟩ ∧ Bounds.Contains ⟨0, 0, 9, 9⟩ 9 9
      ∧ Bounds.Contains ⟨0, 0, 9, 9⟩ 0 9)
    ∧ GetPtr 4 ⟨4096, 64, ⟨0, 0, 9, 9⟩⟩ 9 9 = 4096 + (9 * 64 + 9 * 4)
    ∧ 9 * 64 + 9 * 4 + 4 ≤ 64 * 10
    ∧ (GetPtr 4 ⟨4096, 64, ⟨0, 0, 9, 9⟩⟩ 9 9 + 4 ≤ GetPtr 4 ⟨4096, 64, ⟨0, 0, 9, 9⟩⟩ 0 9
      ∨ GetPtr 4 ⟨4096, 64, ⟨0, 0, 9, 9⟩⟩ 0 9 + 4 ≤ GetPtr 4 ⟨4096, 64, ⟨0, 0, 9, 9⟩⟩ 9 9) :=
  ⟨by decide,
    (GetPtr_in_bounds_disjoint 4 ⟨4096, 64, ⟨0, 0, 9, 9⟩⟩ (by decide) 9 9 (by decide)).1,
    (GetPtr_in_bounds_disjoint 4 ⟨4096, 64, ⟨0, 0, 9, 9⟩⟩ (by decide) 9 9 (by decide)).2.1,
    (GetPtr_in_bounds_disjoint 4 ⟨4096, 64, ⟨0, 0, 9, 9⟩⟩ (by decide) 9 9
      (by decide)).2.2.2 0 9 (by decide) (Or.inl (by decide))⟩

/-! ## Copy-out -/

/-- The copy-out loop writes inside its destination rows only, wherever it reads. -/
theorem MemCpyOutLoop_frame (b : ImageBase) (pitch size : Nat) :
    ∀ (n src dst : Nat) (m : Mem),
      (∀ i, i < n → dst + i * pitch < 2 ^ 64) →
      ∀ a, (∀ i, i < n → ¬ (dst + i * pitch ≤ a ∧ a < dst + i * pitch + size)) →
        MemCpyOutLoop b pitch size n src dst m a = m a := by
  intro n
  induction n with
  | zero => intro src dst m _ a _; rfl
  | succ n ih =>
    intro src dst m hd a ha
    have h0 : memcpy m dst src size a = m a := by
      apply memcpy_outside
      have := ha 0 (by omega)
      rw [Nat.zero_mul] at this
      omega
    rcases Nat.eq_zero_or_pos n with hn | hn
    · subst hn
      exact h0
    · have h1 := hd 1 (by omega)
      rw [Nat.one_mul] at h1
      have hstep : MemCpyOutLoop b pitch size (n + 1) src dst m
          = MemCpyOutLoop b pitch size n (b.GetNextRow dst) (dst + pitch)
              (memcpy m dst src size) := by
        show MemCpyOutLoop b pitch size n (b.GetNextRow dst) (ptrAdd dst pitch) _ = _
        unfold ptrAdd
        rw [Nat.mod_eq_of_lt h1]
      have hd2 : ∀ i, i < n → dst + pitch + i * pitch < 2 ^ 64 := by
        intro i hi
        have := hd (i + 1) (by omega)
        rw [Nat.succ_mul] at this; omega
      have ha2 : ∀ i, i < n →
          ¬ (dst + pitch + i * pitch ≤ a ∧ a < dst + pitch + i * pitch + size) := by
        intro i hi
        have := ha (i + 1) (by omega)
        rw [Nat.succ_mul] at this; omega
      rw [hstep, ih _ _ _ hd2 a ha2, h0]

/-- Claim C19. Copy-out frame. For a region `r` of at least one column and one row
and host rows at the non-null pointer `dst` with stride `S` that lie in the
address space and outside the storage of `b`: `MemCpyOut(dst, S, r)` changes no
byte outside the ranges `[dst + i * S, dst + i * S + width * sizeof(T))`,
`i < height`; in particular the storage of `b` holds what it held before (the
member is `const`: pitch and region are not touched); and `MemCpyOut(dst, S)` is
`MemCpyOut(dst, S, region_)`. -/
theorem MemCpyOut_frame (sz : Nat) (b : ImageBase) (dst S : Nat) (r : Bounds) (m : Mem)
    (hsz : 0 < sz) (hr : r.NonDegenerate) (hdst : 0 < dst)
    (hhost : ∀ i, i < rowCount r.y1 r.y2 → ∀ j, j < (r.x2 + 1 - r.x1).toNat * sz →
      dst + i * S + j < 2 ^ 64 ∧ ¬ b.InStorage (dst + i * S + j)) :
    (∀ a, (∀ i, i < rowCount r.y1 r.y2 →
          ¬ (dst + i * S ≤ a ∧ a < dst + i * S + (r.x2 + 1 - r.x1).toNat * sz)) →
        b.MemCpyOutRegion sz dst S r m a = m a)
    ∧ (∀ a, b.InStorage a → b.MemCpyOutRegion sz dst S r m a = m a)
    ∧ b.MemCpyOut sz dst S m = b.MemCpyOutRegion sz dst S b.region_ m := by
  obtain ⟨r1, r2⟩ := hr
  have hWpos : 0 < (r.x2 + 1 - r.x1).toNat * sz := Nat.mul_pos (by omega) hsz
  have hn : 0 < rowCount r.y1 r.y2 := by unfold rowCount; omega
  have hlast := (hhost 0 hn ((r.x2 + 1 - r.x1).toNat * sz - 1) (by omega)).1
  have hW : (r.x2 + 1 - r.x1).toNat < 2 ^ 64 := by
    have := Nat.le_mul_of_pos_right (r.x2 + 1 - r.x1).toNat hsz
    omega
  have hsize : mulSizeT (toSizeT r.GetWidth) sz = (r.x2 + 1 - r.x1).toNat * sz := by
    have e : r.GetWidth = r.x2 + 1 - r.x1 := by unfold Bounds.GetWidth; ring
    rw [e, toSizeT_of_nonneg _ (by omega) (by omega), mulSizeT_of_lt _ _ (by omega)]
  have hframe : ∀ a, (∀ i, i < rowCount r.y1 r.y2 →
        ¬ (dst + i * S ≤ a ∧ a < dst + i * S + (r.x2 + 1 - r.x1).toNat * sz)) →
      b.MemCpyOutRegion sz dst S r m a = m a := by
    intro a ha
    unfold MemCpyOutRegion
    rw [hsize]
    exact MemCpyOutLoop_frame b S _ _ _ dst m
      (fun i hi => by have := (hhost i hi 0 hWpos).1; omega) a ha
  refine ⟨hframe, ?_, rfl⟩
  intro a hin
  apply hframe
  intro i hi hrange
  exact (hhost i hi (a - (dst + i * S)) (by omega)).2
    (by rw [show dst + i * S + (a - (dst + i * S)) = a by omega]; exact hin)

/-- Witness of claim C19: the buffer over `[0,0]-[9,9]` at address 4096 with 4-byte
elements, the rectangle `[5,5]-[9,9]`, host rows of stride 20 at address 8192. -/
theorem MemCpyOut_frame_witness :
    (Bounds.NonDegenerate ⟨5, 5, 9, 9⟩ ∧ 5 * 4 ≤ 20
      ∧ Valid 4 ⟨4096, 64, ⟨0, 0, 9, 9⟩⟩)
    ∧ (∀ a, InStorage ⟨4096, 64, ⟨0, 0, 9, 9⟩⟩ a →
        MemCpyOutRegion 4 ⟨4096, 64, ⟨0, 0, 9, 9⟩⟩ 8192 20 ⟨5, 5, 9, 9⟩
          (fun q => q % 251) a = a % 251) :=
  ⟨by decide,
    (MemCpyOut_frame 4 ⟨4096, 64, ⟨0, 0, 9, 9⟩⟩ 8192 20 ⟨5, 5, 9, 9⟩ (fun q => q % 251)
      (by decide) (by decide) (by decide) (by decide)).2.1⟩

/-- Claim C15 fails on the code. A source `s` over `[0,0]-[0,0]` at address 4096
and a destination `d` over `[0,0]-[1,0]` at address 8192, 4-byte elements:
`s.MemCpyOut(d)` copies the 8 bytes of the region of `d`, while
`s.MemCpyOut(d, s.GetBounds())` copies 4 bytes, so the byte at 8196 differs. -/
theorem MemCpyOut_image_not_own_region :
    MemCpyOutImage 4 ⟨4096, 64, ⟨0, 0, 0, 0⟩⟩ ⟨8192, 64, ⟨0, 0, 1, 0⟩⟩ (fun q => q % 251)
        (8192 + 4) = 84
    ∧ MemCpyOutImageRegion 4 ⟨4096, 64, ⟨0, 0, 0, 0⟩⟩ ⟨8192, 64, ⟨0, 0, 1, 0⟩⟩
        (GetBounds ⟨4096, 64, ⟨0, 0, 0, 0⟩⟩) (fun q => q % 251) (8192 + 4) = 164
    ∧ MemCpyOutImage 4 ⟨4096, 64, ⟨0, 0, 0, 0⟩⟩ ⟨8192, 64, ⟨0, 0, 1, 0⟩⟩ (fun q => q % 251)
        ≠ MemCpyOutImageRegion 4 ⟨4096, 64, ⟨0, 0, 0, 0⟩⟩ ⟨8192, 64, ⟨0, 0, 1, 0⟩⟩
            (GetBounds ⟨4096, 64, ⟨0, 0, 0, 0⟩⟩) (fun q => q % 251) := by
  have h1 : MemCpyOutImage 4 ⟨4096, 64, ⟨0, 0, 0, 0⟩⟩ ⟨8192, 64, ⟨0, 0, 1, 0⟩⟩
      (fun q => q % 251) (8192 + 4) = 84 := by decide
  have h2 : MemCpyOutImageRegion 4 ⟨4096, 64, ⟨0, 0, 0, 0⟩⟩ ⟨8192, 64, ⟨0, 0, 1, 0⟩⟩
      (GetBounds ⟨4096, 64, ⟨0, 0, 0, 0⟩⟩) (fun q => q % 251) (8192 + 4) = 164 := by decide
  refine ⟨h1, h2, ?_⟩
  intro heq
  have h3 := congrFun heq (8192 + 4)
  rw [h1, h2] at h3
  exact absurd h3 (by decide)

/-- A byte of row `i` of a rectangle inside the region of a valid buffer is a byte
of one of the pixels of that row. -/
theorem row_byte_is_pixel {sz : Nat} {b : ImageBase} (hv : b.Valid sz) {r : Bounds}
    (hr : r.NonDegenerate) (hin : r.Within b.region_) (i : Nat)
    (hi : i < rowCount r.y1 r.y2) (a : Nat)
    (h1 : b.GetPtr sz r.x1 r.y1 + i * b.pitch_ ≤ a)
    (h2 : a < b.GetPtr sz r.x1 r.y1 + i * b.pitch_ + (r.x2 + 1 - r.x1).toNat * sz) :
    ∃ x y k, r.Contains x y ∧ k < sz ∧ a = b.GetPtr sz x y + k := by
  obtain ⟨hsz, _, _, _, _, _⟩ := Valid_facts hv
  obtain ⟨r1, r2⟩ := hr
  unfold rowCount at hi
  obtain ⟨q, k, hq, hk, hqk⟩ : ∃ q k, q < (r.x2 + 1 - r.x1).toNat ∧ k < sz
      ∧ a = b.GetPtr sz r.x1 r.y1 + i * b.pitch_ + q * sz + k := by
    refine ⟨(a - (b.GetPtr sz r.x1 r.y1 + i * b.pitch_)) / sz,
      (a - (b.GetPtr sz r.x1 r.y1 + i * b.pitch_)) % sz, ?_, Nat.mod_lt _ hsz, ?_⟩
    · apply Nat.div_lt_of_lt_mul
      rw [Nat.mul_comm sz]; omega
    · have := Nat.div_add_mod (a - (b.GetPtr sz r.x1 r.y1 + i * b.pitch_)) sz
      rw [Nat.mul_comm sz] at this
      omega
  have hcx : r.Contains (r.x1 + (q : Int)) (r.y1 + (i : Int)) :=
    ⟨by omega, by omega, by omega, by omega⟩
  obtain ⟨g1, _, _⟩ := GetPtr_in_sub hv hin hcx
  have hxi : (r.x1 + (q : Int) - r.x1).toNat = q := by omega
  have hyi : (r.y1 + (i : Int) - r.y1).toNat = i := by omega
  rw [hyi, hxi] at g1
  exact ⟨_, _, k, hcx, hk, by rw [g1]; exact hqk⟩

/-- Claim C15 as amended. For every source buffer `s` and destination buffer `d`,
`s.MemCpyOut(d)` with no explicit region is `s.MemCpyOut(d, d.GetBounds())`: the
copied region is the region of the destination buffer, and no intersection with
the region of `s` is taken; for a valid destination, the call changes no byte
other than those of the pixels of the region of `d`. -/
theorem MemCpyOut_image_dest_region (sz : Nat) (s d : ImageBase) (m : Mem) :
    s.MemCpyOutImage sz d m = s.MemCpyOutImageRegion sz d d.GetBounds m
    ∧ (d.Valid sz → ∀ a,
        (∀ x y, d.region_.Contains x y → ∀ k, k < sz → a ≠ d.GetPtr sz x y + k) →
        s.MemCpyOutImage sz d m a = m a) := by
  refine ⟨rfl, ?_⟩
  intro hd a ha
  have hnd : d.region_.NonDegenerate := hd.2.2.1
  have hin : d.region_.Within d.region_ := ⟨le_refl _, le_refl _, le_refl _, le_refl _⟩
  obtain ⟨hsize, _⟩ := rowSize_sub hd hnd hin
  obtain ⟨hsz, _, _, _, hblk, _⟩ := Valid_facts hd
  have hWpos : 0 < (d.region_.x2 + 1 - d.region_.x1).toNat * sz :=
    Nat.mul_pos (by obtain ⟨r1, _⟩ := hnd; omega) hsz
  have hrow : ∀ i, i < rowCount d.region_.y1 d.region_.y2 →
      d.GetPtr sz d.region_.x1 d.region_.y1 + i * d.pitch_ < 2 ^ 64 := by
    intro i hi
    have hi2 := hi
    unfold rowCount at hi2
    obtain ⟨r1, r2⟩ := hnd
    have hc : d.region_.Contains d.region_.x1 (d.region_.y1 + (i : Int)) :=
      ⟨by omega, by omega, by omega, by omega⟩
    have hidx : ((d.region_.y1 + (i : Int)) - d.region_.y1).toNat = i := by omega
    obtain ⟨_, _, g3⟩ := GetPtr_in_sub hd hin hc
    rw [hidx] at g3
    omega
  show MemCpyOutLoop s d.pitch_ (mulSizeT (toSizeT d.region_.GetWidth) sz)
    (rowCount d.region_.y1 d.region_.y2) _ (d.GetPtr sz d.region_.x1 d.region_.y1) m a = m a
  rw [hsize]
  apply MemCpyOutLoop_frame s d.pitch_ _ _ _ _ m hrow a
  intro i hi hrange
  obtain ⟨x, y, k, hc, hk, heq⟩ := row_byte_is_pixel hd hnd hin i hi a hrange.1 hrange.2
  exact ha x y hc k hk heq

/-- Witness of claim C15 as amended: a source over `[0,0]-[9,9]` at address 4096 and
a valid destination over `[5,5]-[9,9]` at address 8192, 4-byte elements; the byte
at 8192 + 20, behind the first row of the destination, is not changed. -/
theorem MemCpyOut_image_dest_region_witness :
    Valid 4 ⟨8192, 64, ⟨5, 5, 9, 9⟩⟩
    ∧ MemCpyOutImage 4 ⟨4096, 64, ⟨0, 0, 9, 9⟩⟩ ⟨8192, 64, ⟨5, 5, 9, 9⟩⟩ (fun q => q % 251)
        = MemCpyOutImageRegion 4 ⟨4096, 64, ⟨0, 0, 9, 9⟩⟩ ⟨8192, 64, ⟨5, 5, 9, 9⟩⟩
            ⟨5, 5, 9, 9⟩ (fun q => q % 251)
    ∧ (∀ a, (∀ x y, Bounds.Contains ⟨5, 5, 9, 9⟩ x y → ∀ k, k < 4 →
          a ≠ GetPtr 4 ⟨8192, 64, ⟨5, 5, 9, 9⟩⟩ x y + k) →
        MemCpyOutImage 4 ⟨4096, 64, ⟨0, 0, 9, 9⟩⟩ ⟨8192, 64, ⟨5, 5, 9, 9⟩⟩
          (fun q => q % 251) a = a % 251) :=
  ⟨by decide,
    (MemCpyOut_image_dest_region 4 ⟨4096, 64, ⟨0, 0, 9, 9⟩⟩ ⟨8192, 64, ⟨5, 5, 9, 9⟩⟩
      (fun q => q % 251)).1,
    (MemCpyOut_image_dest_region 4 ⟨4096, 64, ⟨0, 0, 9, 9⟩⟩ ⟨8192, 64, ⟨5, 5, 9, 9⟩⟩
      (fun q => q % 251)).2 (by decide)⟩

/-! ## No aliasing after a copy -/

/-- Claim C14. For a valid buffer `b` and an allocator that answers the request of
the copy constructor with a block in the address space that is disjoint from the
storage of `b`: no byte of an in-region element of the copy `c` is a byte of an
in-region element of `b`; a store through `c.GetPtr(x, y)` changes no byte of
the storage of `b`; and `MemCpyIn` into `c`, from host rows outside the storage
of `c`, changes no byte of the storage of `b`. -/
theorem no_alias_after_copy (sz : Nat) (aligned_alloc : Nat → Nat → Nat) (dflt : Bounds)
    (b : ImageBase) (m : Mem) (hb : b.Valid sz)
    (hnull : aligned_alloc 64 (b.pitch_ * b.region_.GetHeight.toNat) ≠ 0)
    (hfit : aligned_alloc 64 (b.pitch_ * b.region_.GetHeight.toNat)
      + b.pitch_ * b.region_.GetHeight.toNat ≤ 2 ^ 64)
    (hfresh : aligned_alloc 64 (b.pitch_ * b.region_.GetHeight.toNat)
        + b.pitch_ * b.region_.GetHeight.toNat ≤ b.ptr_
      ∨ b.ptr_ + b.pitch_ * b.region_.GetHeight.toNat
        ≤ aligned_alloc 64 (b.pitch_ * b.region_.GetHeight.toNat)) :
    (∀ x y, b.region_.Contains x y → ∀ x0 y0, b.region_.Contains x0 y0 →
      ∀ k, k < sz → ∀ k0, k0 < sz →
        (ctorCopy sz aligned_alloc dflt b m).1.GetPtr sz x y + k ≠ b.GetPtr sz x0 y0 + k0)
    ∧ (∀ (heap : Mem) (x y : Int), b.region_.Contains x y → ∀ k, k < sz → ∀ v a,
        b.InStorage a →
        write heap ((ctorCopy sz aligned_alloc dflt b m).1.GetPtr sz x y + k) v a = heap a)
    ∧ (∀ (heap : Mem) (src srcPitch : Nat) (r : Bounds), r.NonDegenerate →
        r.Within b.region_ →
        (∀ i, i < rowCount r.y1 r.y2 → ∀ j, j < (r.x2 + 1 - r.x1).toNat * sz →
          src + i * srcPitch + j < 2 ^ 64
          ∧ ¬ (ctorCopy sz aligned_alloc dflt b m).1.InStorage (src + i * srcPitch + j)) →
        ∀ a, b.InStorage a →
          (ctorCopy sz aligned_alloc dflt b m).1.MemCpyInRegion sz src srcPitch r heap a
            = heap a) := by
  have hce : (ctorCopy sz aligned_alloc dflt b m).1
      = { ptr_ := aligned_alloc 64 (b.pitch_ * b.region_.GetHeight.toNat),
          pitch_ := b.pitch_, region_ := b.region_ } := by
    unfold ctorCopy
    rw [Copy_eq sz aligned_alloc _ b m hb]
  rw [hce]
  generalize aligned_alloc 64 (b.pitch_ * b.region_.GetHeight.toNat) = p at *
  have hc : Valid sz { ptr_ := p, pitch_ := b.pitch_, region_ := b.region_ } := by
    obtain ⟨_, hsz, hnd, hov, hp, _⟩ := hb
    exact ⟨hnull, hsz, hnd, hov, hp, hfit⟩
  have hsep : ∀ a, InStorage { ptr_ := p, pitch_ := b.pitch_, region_ := b.region_ } a →
      ¬ b.InStorage a := by
    intro a h1 h2
    unfold InStorage at h1 h2
    simp only at h1
    omega
  refine ⟨?_, ?_, ?_⟩
  · intro x y hxy x0 y0 hxy0 k hk k0 hk0 heq
    exact hsep _ (pixel_in_storage hc hxy hk) (heq ▸ pixel_in_storage hb hxy0 hk0)
  · intro heap x y hxy k hk v a ha
    unfold write
    rw [if_neg]
    intro heq
    exact hsep _ (pixel_in_storage hc hxy hk) (heq ▸ ha)
  · intro heap src srcPitch r hr hin hhost a ha
    obtain ⟨hsz, _, _, _, _, _⟩ := Valid_facts hb
    have hWpos : 0 < (r.x2 + 1 - r.x1).toNat * sz :=
      Nat.mul_pos (by obtain ⟨r1, _⟩ := hr; omega) hsz
    obtain ⟨_, sb⟩ := MemCpyInRegion_spec hc hr hin src srcPitch heap
      (fun i hi => by have := (hhost i hi 0 hWpos).1; omega)
      (fun i hi j hj => (hhost i hi j hj).2)
    apply sb
    intro x y hxy k hk heq
    exact hsep _ (pixel_in_storage hc (contains_of_within hin hxy) hk) (heq ▸ ha)

/-- Witness of claim C14: the buffer over `[0,0]-[9,9]` at address 4096 with 4-byte
elements, copied into a block that the allocator places at address 8192. -/
theorem no_alias_after_copy_witness :
    (Valid 4 ⟨4096, 64, ⟨0, 0, 9, 9⟩⟩ ∧ (8192 : Nat) ≠ 0 ∧ 8192 + 64 * 10 ≤ 2 ^ 64
      ∧ 4096 + 64 * 10 ≤ 8192)
    ∧ (∀ x y, Bounds.Contains ⟨0, 0, 9, 9⟩ x y → ∀ x0 y0, Bounds.Contains ⟨0, 0, 9, 9⟩ x0 y0 →
      ∀ k, k < 4 → ∀ k0, k0 < 4 →
        (ctorCopy 4 (fun _ _ => 8192) ⟨0, 0, 0, 0⟩ ⟨4096, 64, ⟨0, 0, 9, 9⟩⟩
            (fun q => q % 251)).1.GetPtr 4 x y + k
          ≠ GetPtr 4 ⟨4096, 64, ⟨0, 0, 9, 9⟩⟩ x0 y0 + k0)
    ∧ (ctorCopy 4 (fun _ _ => 8192) ⟨0, 0, 0, 0⟩ ⟨4096, 64, ⟨0, 0, 9, 9⟩⟩
          (fun q => q % 251)).1.ptr_ = 8192 :=
  ⟨by decide,
    (no_alias_after_copy 4 (fun _ _ => 8192) ⟨0, 0, 0, 0⟩ ⟨4096, 64, ⟨0, 0, 9, 9⟩⟩
      (fun q => q % 251) (by decide) (by decide) (by decide) (Or.inr (by decide))).1,
    rfl⟩

end afx
